import Mathlib

/-! Verification development for the trading-strategy backtesting engine of
this repository (the simulation service: `evaluateCondition`, `shouldBuy`,
`shouldSell` and `runSimulation`, together with the type declarations in the
shared types module).

Modelling conventions of the shallow embedding:
- JavaScript numbers are modelled as exact rationals (`ℚ`).  Every numeric
  step of the source (price arithmetic, cash accounting, percentages) is
  translated literally; the claims about numeric identities are settled over
  exact arithmetic, as the claim list stipulates.
- Calendar dates are ISO `yyyy-MM-dd` strings in the source, compared and
  sorted lexicographically, which agrees with chronological order; the
  embedding uses `Nat` day numbers, an order-isomorphic representation.
- The source's `Record<string, PriceData[]>` of fetched series is modelled as
  the function `dataOf : String → List PriceData`: the external price-series
  provider is, per the specification, a pure function from symbol to series.
- Division by zero follows the `ℚ` convention (`x / 0 = 0`).  The source
  would produce `Infinity`/`NaN` there; all claims are settled on well-formed
  price data (strictly positive closes) where the two semantics agree, or do
  not involve a division whose denominator can vanish.
- Loosely-typed condition records (`any` in the source) are modelled with
  `Option` fields; `none` stands for an absent (`undefined`) field, and the
  JS falsiness test on a string field (`!condition.indicator`) is translated
  as "absent or empty string". -/

namespace TS

/-- A daily price bar, source type `PriceData` (`date`, `open`, `high`,
`close`, `low`, `volume`); the `open` field is renamed `openPrice` because
`open` is a Lean keyword. -/
structure PriceData where
  date : Nat
  openPrice : ℚ
  high : ℚ
  close : ℚ
  low : ℚ
  volume : ℚ
deriving Repr, DecidableEq

/-- A rule record, duck-typed in the source: an indicator rule carries
`indicator`/`operator`/`value`, an exit rule carries `type`/`value`.  All
fields optional, mirroring the `any`-typed payload. -/
structure Condition where
  type : Option String
  indicator : Option String
  operator : Option String
  value : Option ℚ
deriving Repr, DecidableEq

/-- A rule set (`scannerConfig`/`buyConfig`/`sellConfig`): `conditions`
is `none` when the field is absent or not an array, `some l` otherwise. -/
structure RuleSet where
  conditions : Option (List Condition)
deriving Repr, DecidableEq

/-- Source type `Trade`.  `quantity` is an integer (`Math.floor` result);
`status` is the source's string tag, `"open"` or `"closed"`. -/
structure Trade where
  symbol : String
  entryDate : Nat
  entryPrice : ℚ
  exitDate : Option Nat
  exitPrice : Option ℚ
  quantity : ℤ
  pnl : Option ℚ
  pnlPercentage : Option ℚ
  status : String
deriving Repr, DecidableEq

/-- Source type `SimulationConfig`. -/
structure SimulationConfig where
  startDate : Nat
  endDate : Nat
  initialCapital : ℚ
  symbols : List String
  maxPositions : Nat
  positionSize : ℚ
deriving Repr, DecidableEq

/-- The strategy fields consumed by `runSimulation` (the CRUD metadata of the
source's `Strategy` — name, description, persistence ids — is omitted). -/
structure Strategy where
  scannerConfig : RuleSet
  buyConfig : RuleSet
  sellConfig : RuleSet
  simulationConfig : SimulationConfig
deriving Repr, DecidableEq

/-- One equity-curve entry (`{ date, equity }`). -/
structure EquityPoint where
  date : Nat
  equity : ℚ
deriving Repr, DecidableEq

/-- One drawdown-series entry (`{ date, drawdown }`). -/
structure DrawdownPoint where
  date : Nat
  drawdown : ℚ
deriving Repr, DecidableEq

/-- The metrics block of `SimulationResults`.  `profitFactor` is `none` when
the source returns its `Infinity` sentinel. -/
structure Metrics where
  maxDrawdown : ℚ
  averageTrade : ℚ
  profitFactor : Option ℚ
  totalTrades : Nat
  winningTrades : Nat
  losingTrades : Nat
deriving Repr, DecidableEq

/-- Source type `SimulationResults`. -/
structure SimulationResults where
  totalPnl : ℚ
  totalPnlPercentage : ℚ
  winRate : ℚ
  trades : List Trade
  equityCurve : List EquityPoint
  drawdowns : List DrawdownPoint
  metrics : Metrics
deriving Repr, DecidableEq

/-- Source `evaluateCondition(condition, priceData, previousPriceData?)`.
The guard `!condition || !condition.indicator || !condition.operator ||
condition.value === undefined` is the outer `match` plus the empty-string
falsiness test; the two `switch` statements follow literally.  The
`priceChange` indicator yields no value when no previous bar exists, which
makes the function return `false` as in the source. -/
def evaluateCondition (condition : Condition) (priceData : PriceData)
    (previousPriceData : Option PriceData) : Bool :=
  match condition.indicator, condition.operator, condition.value with
  | some ind, some op, some value =>
    if ind == "" || op == "" then false
    else
      let actualValue? : Option ℚ :=
        if ind = "price" then some priceData.close
        else if ind = "volume" then some priceData.volume
        else if ind = "priceChange" then
          match previousPriceData with
          | none => none
          | some prev => some ((priceData.close - prev.close) / prev.close * 100)
        else none
      match actualValue? with
      | none => false
      | some actualValue =>
        if op = ">" then decide (actualValue > value)
        else if op = "<" then decide (actualValue < value)
        else if op = ">=" then decide (actualValue ≥ value)
        else if op = "<=" then decide (actualValue ≤ value)
        else if op = "==" then decide (actualValue = value)
        else false
  | _, _, _ => false

/-- Source `shouldBuy(buyConfig, priceData, previousPriceData?)`: false when
the conditions field is absent, not an array, or empty; otherwise the AND
(`Array.every`) of the individual conditions. -/
def shouldBuy (buyConfig : RuleSet) (priceData : PriceData)
    (previousPriceData : Option PriceData) : Bool :=
  match buyConfig.conditions with
  | none => false
  | some conds =>
    if conds.isEmpty then false
    else conds.all (fun condition => evaluateCondition condition priceData previousPriceData)

/-- Source `shouldSell(sellConfig, priceData, previousPriceData?, trade?)`:
false when the conditions field is absent/empty, or the trade is absent or
already closed; otherwise the OR (`Array.some`) of the conditions, where
`stopLoss` / `takeProfit` compare the percentage move from the entry price
and every other shape goes through `evaluateCondition`.  A missing `value`
on an exit rule makes its comparison false (`x <= NaN` in the source). -/
def shouldSell (sellConfig : RuleSet) (priceData : PriceData)
    (previousPriceData : Option PriceData) (trade : Option Trade) : Bool :=
  match sellConfig.conditions with
  | none => false
  | some conds =>
    if conds.isEmpty then false
    else
      match trade with
      | none => false
      | some t =>
        if t.status = "closed" then false
        else
          conds.any (fun condition =>
            if condition.type = some ("stopLoss") then
              match condition.value with
              | none => false
              | some v =>
                let currentLoss := (priceData.close - t.entryPrice) / t.entryPrice * 100
                decide (currentLoss ≤ -v)
            else if condition.type = some ("takeProfit") then
              match condition.value with
              | none => false
              | some v =>
                let currentProfit := (priceData.close - t.entryPrice) / t.entryPrice * 100
                decide (currentProfit ≥ v)
            else evaluateCondition condition priceData previousPriceData)

/-- `Array.find(data => data.date === d)` on a price series. -/
def findBar (series : List PriceData) (d : Nat) : Option PriceData :=
  series.find? (fun bar => bar.date == d)

/-- Helper for the JS dedup idiom: keep an element iff it has not occurred
before (`seen` accumulates the values already emitted). -/
def dedupSeen (seen : List Nat) : List Nat → List Nat
  | [] => []
  | d :: ds => if seen.contains d then dedupSeen seen ds
               else d :: dedupSeen (d :: seen) ds

/-- The JS dedup idiom `filter((x, i, self) => self.indexOf(x) === i)`:
keep the first occurrence of each value, drop later duplicates. -/
def dedupKeepFirst (l : List Nat) : List Nat :=
  dedupSeen [] l

/-- Insert into a list sorted ascending (helper for `Array.sort()`). -/
def insertAsc (d : Nat) : List Nat → List Nat
  | [] => [d]
  | x :: xs => if d ≤ x then d :: x :: xs else x :: insertAsc d xs

/-- `Array.sort()` on the (order-isomorphic) day numbers: sort ascending. -/
def sortAsc : List Nat → List Nat
  | [] => []
  | x :: xs => insertAsc x (sortAsc xs)

/-- The global trading-day index `allDates`: all dates of all configured
symbols' series, deduplicated and sorted ascending.  (The source flattens
`Object.values(historicalDataBySymbol)`; iterating the symbol list directly
yields the same multiset of dates up to repetition of duplicated symbols,
which the dedup-and-sort erases.) -/
def allDatesOf (dataOf : String → List PriceData) (symbols : List String) : List Nat :=
  sortAsc (dedupKeepFirst ((symbols.map (fun s => (dataOf s).map PriceData.date)).flatten))

/-- The mutable loop state of `runSimulation`: `cash`, `positions` (open),
`allTrades` (the closed-trade ledger) and the accumulated `equityCurve`. -/
structure SimState where
  cash : ℚ
  positions : List Trade
  allTrades : List Trade
  equityCurve : List EquityPoint
deriving Repr, DecidableEq

/-- The close transition of one day, source lines `for (const position of
openPositions) { ... }`.  Processes the day-start position list in order and
returns (remaining open positions, updated cash, the trades closed today in
the order they were appended to `allTrades`).  A position that is already
closed, or whose symbol has no bar today, or for which `shouldSell` is
false, stays in the open list untouched. -/
def processSells (sellConfig : RuleSet) (dataOf : String → List PriceData)
    (currentDate : Nat) (previousDate : Option Nat) :
    List Trade → ℚ → List Trade × ℚ × List Trade
  | [], cash => ([], cash, [])
  | position :: rest, cash =>
    if position.status = "closed" then
      let r := processSells sellConfig dataOf currentDate previousDate rest cash
      (position :: r.1, r.2.1, r.2.2)
    else
      match findBar (dataOf position.symbol) currentDate with
      | none =>
        let r := processSells sellConfig dataOf currentDate previousDate rest cash
        (position :: r.1, r.2.1, r.2.2)
      | some currentPriceData =>
        let previousPriceData := previousDate.bind (fun pd => findBar (dataOf position.symbol) pd)
        if shouldSell sellConfig currentPriceData previousPriceData (some position) then
          let exitPrice := currentPriceData.close
          let closedTrade : Trade :=
            { position with
              exitDate := some currentDate
              exitPrice := some exitPrice
              status := "closed"
              pnl := some ((exitPrice - position.entryPrice) * (position.quantity : ℚ))
              pnlPercentage := some ((exitPrice - position.entryPrice) / position.entryPrice * 100) }
          let r := processSells sellConfig dataOf currentDate previousDate rest
            (cash + exitPrice * (position.quantity : ℚ))
          (r.1, r.2.1, closedTrade :: r.2.2)
        else
          let r := processSells sellConfig dataOf currentDate previousDate rest cash
          (position :: r.1, r.2.1, r.2.2)

/-- The open transition of one day, source lines `for (const symbol of
simulationConfig.symbols) { ... }`: stop (`break`) as soon as the open count
reaches `maxPositions`; otherwise, for a symbol with a bar today that passes
the scanner and `shouldBuy`, open a fixed-size position when cash and the
integer share count allow. -/
def processBuys (strategy : Strategy) (dataOf : String → List PriceData)
    (currentDate : Nat) (previousDate : Option Nat) :
    List String → List Trade → ℚ → List Trade × ℚ
  | [], positions, cash => (positions, cash)
  | symbol :: restSymbols, positions, cash =>
    if positions.length ≥ strategy.simulationConfig.maxPositions then
      (positions, cash)
    else
      match findBar (dataOf symbol) currentDate with
      | none => processBuys strategy dataOf currentDate previousDate restSymbols positions cash
      | some currentPriceData =>
        let previousPriceData := previousDate.bind (fun pd => findBar (dataOf symbol) pd)
        let passesScanner : Bool :=
          match strategy.scannerConfig.conditions with
          | none => true
          | some conds => conds.all (fun condition =>
              evaluateCondition condition currentPriceData previousPriceData)
        if passesScanner && shouldBuy strategy.buyConfig currentPriceData previousPriceData then
          let positionValue := strategy.simulationConfig.positionSize / 100 *
            strategy.simulationConfig.initialCapital
          if cash < positionValue then
            processBuys strategy dataOf currentDate previousDate restSymbols positions cash
          else
            let quantity : ℤ := ⌊positionValue / currentPriceData.close⌋
            if quantity = 0 then
              processBuys strategy dataOf currentDate previousDate restSymbols positions cash
            else
              let newTrade : Trade :=
                { symbol := symbol
                  entryDate := currentDate
                  entryPrice := currentPriceData.close
                  exitDate := none
                  exitPrice := none
                  quantity := quantity
                  pnl := none
                  pnlPercentage := none
                  status := "open" }
              processBuys strategy dataOf currentDate previousDate restSymbols
                (positions ++ [newTrade]) (cash - newTrade.entryPrice * (quantity : ℚ))
        else processBuys strategy dataOf currentDate previousDate restSymbols positions cash

/-- The equity snapshot, source `positions.reduce(...)` seeded with `cash`:
mark every open position at today's close, contributing 0 when the symbol
has no bar today. -/
def portfolioValue (dataOf : String → List PriceData) (currentDate : Nat)
    (positions : List Trade) (cash : ℚ) : ℚ :=
  positions.foldl (fun total position =>
    match findBar (dataOf position.symbol) currentDate with
    | some bar => total + bar.close * (position.quantity : ℚ)
    | none => total) cash

/-- One iteration of the day loop: close transition, then open transition,
then the equity snapshot appended to the curve. -/
def processDay (strategy : Strategy) (dataOf : String → List PriceData)
    (currentDate : Nat) (previousDate : Option Nat) (st : SimState) : SimState :=
  let s := processSells strategy.sellConfig dataOf currentDate previousDate st.positions st.cash
  let b := processBuys strategy dataOf currentDate previousDate
    strategy.simulationConfig.symbols s.1 s.2.1
  { cash := b.2
    positions := b.1
    allTrades := st.allTrades ++ s.2.2
    equityCurve := st.equityCurve ++
      [{ date := currentDate, equity := portfolioValue dataOf currentDate b.1 b.2 }] }

/-- The day loop, threading each day's predecessor in the global index as
`previousDate` (the source's `allDates[i - 1]`, `null` for the first day). -/
def simLoop (strategy : Strategy) (dataOf : String → List PriceData) :
    List Nat → Option Nat → SimState → SimState
  | [], _, st => st
  | d :: rest, previousDate, st =>
    simLoop strategy dataOf rest (some d) (processDay strategy dataOf d previousDate st)

/-- The loop state at the start of a run. -/
def initState (strategy : Strategy) : SimState :=
  { cash := strategy.simulationConfig.initialCapital
    positions := []
    allTrades := []
    equityCurve := [] }

/-- The loop state after the whole day loop of a run. -/
def finalLoopState (strategy : Strategy) (dataOf : String → List PriceData) : SimState :=
  simLoop strategy dataOf (allDatesOf dataOf strategy.simulationConfig.symbols)
    none (initState strategy)

/-- The loop state after the first `i` days of a run (day prefixes receive
the same `previousDate` threading as in the full run). -/
def simStateAt (strategy : Strategy) (dataOf : String → List PriceData) (i : Nat) : SimState :=
  simLoop strategy dataOf ((allDatesOf dataOf strategy.simulationConfig.symbols).take i)
    none (initState strategy)

/-- The force-close of one position at a given bar (the body of the
end-of-run loop): exit at the bar's close, realize pnl, mark closed. -/
def forceCloseTrade (position : Trade) (lastPriceData : PriceData) : Trade :=
  { position with
    exitDate := some lastPriceData.date
    exitPrice := some lastPriceData.close
    status := "closed"
    pnl := some ((lastPriceData.close - position.entryPrice) * (position.quantity : ℚ))
    pnlPercentage := some ((lastPriceData.close - position.entryPrice) /
      position.entryPrice * 100) }

/-- End-of-run finalization: every position still open is force-closed at
the last element of its symbol's series (`series[series.length - 1]`).  A
position whose series is empty cannot arise (a position is only ever opened
from a bar of that series); the source would fail there, the embedding
leaves such a position unchanged. -/
def finalizeRun (dataOf : String → List PriceData) (positions : List Trade) : List Trade :=
  positions.map (fun position =>
    match (dataOf position.symbol).getLast? with
    | none => position
    | some lastPriceData => forceCloseTrade position lastPriceData)

/-- The source idiom `trade.pnl || 0`: the recorded pnl, defaulting an
absent field to 0 (a present pnl of exactly 0 yields the same number). -/
def pnlOr0 (t : Trade) : ℚ := t.pnl.getD 0

/-- The source idiom `trade.pnlPercentage || 0`. -/
def pnlPctOr0 (t : Trade) : ℚ := t.pnlPercentage.getD 0

/-- Source `equityCurve[equityCurve.length - 1]?.equity || initialCapital`:
the last equity value, falling back to `initialCapital` when the curve is
empty — or when that last value is exactly 0, which is falsy in JS. -/
def finalCapitalOf (equityCurve : List EquityPoint) (initialCapital : ℚ) : ℚ :=
  match equityCurve.getLast? with
  | none => initialCapital
  | some point => if point.equity = 0 then initialCapital else point.equity

/-- The drawdown recursion: thread the running peak through the equity
curve; at each point raise the peak first, then record
`(peak - equity) / peak * 100`. -/
def drawdownsFrom (peak : ℚ) : List EquityPoint → List DrawdownPoint
  | [] => []
  | point :: rest =>
    let peak' := if point.equity > peak then point.equity else peak
    { date := point.date, drawdown := (peak' - point.equity) / peak' * 100 } ::
      drawdownsFrom peak' rest

/-- Source `Math.max(...drawdowns.map(d => d.drawdown), 0)`. -/
def maxDrawdownOf (drawdowns : List DrawdownPoint) : ℚ :=
  (drawdowns.map DrawdownPoint.drawdown).foldr max 0

/-- Source `winningTrades`: the count of ledger trades with `pnl > 0`. -/
def winningCount (allTrades : List Trade) : Nat :=
  (allTrades.filter (fun t => decide (0 < pnlOr0 t))).length

/-- Source `grossProfit`: the summed pnl of the trades with `pnl > 0`. -/
def grossProfitOf (allTrades : List Trade) : ℚ :=
  ((allTrades.filter (fun t => decide (0 < pnlOr0 t))).map pnlOr0).sum

/-- Source `grossLoss`: the absolute value of the summed pnl of the trades
with `pnl < 0`. -/
def grossLossOf (allTrades : List Trade) : ℚ :=
  |((allTrades.filter (fun t => decide (pnlOr0 t < 0))).map pnlOr0).sum|

/-- Source `profitFactor`: `grossProfit / grossLoss`, the `Infinity`
sentinel (here `none`) when `grossLoss = 0 < grossProfit`, else 0. -/
def profitFactorOf (grossProfit grossLoss : ℚ) : Option ℚ :=
  if 0 < grossLoss then some (grossProfit / grossLoss)
  else if 0 < grossProfit then none
  else some 0

/-- Source `runSimulation(strategy)`, with the fetched per-symbol series
supplied as the pure provider `dataOf` (the `await getHistoricalData` calls
populate exactly this mapping). -/
def runSimulation (strategy : Strategy) (dataOf : String → List PriceData) :
    SimulationResults :=
  let initialCapital := strategy.simulationConfig.initialCapital
  let stEnd := finalLoopState strategy dataOf
  let allTrades := stEnd.allTrades ++ finalizeRun dataOf stEnd.positions
  let finalCapital := finalCapitalOf stEnd.equityCurve initialCapital
  let totalPnl := finalCapital - initialCapital
  let totalPnlPercentage := totalPnl / initialCapital * 100
  let winningTrades := winningCount allTrades
  let totalTrades := allTrades.length
  let winRate := if 0 < totalTrades then
    (winningTrades : ℚ) / (totalTrades : ℚ) * 100 else 0
  let drawdowns := drawdownsFrom initialCapital stEnd.equityCurve
  let maxDrawdown := maxDrawdownOf drawdowns
  let averageTrade := if 0 < totalTrades then
    (allTrades.map pnlPctOr0).sum / (totalTrades : ℚ) else 0
  let profitFactor := profitFactorOf (grossProfitOf allTrades) (grossLossOf allTrades)
  { totalPnl := totalPnl
    totalPnlPercentage := totalPnlPercentage
    winRate := winRate
    trades := allTrades
    equityCurve := stEnd.equityCurve
    drawdowns := drawdowns
    metrics :=
      { maxDrawdown := maxDrawdown
        averageTrade := averageTrade
        profitFactor := profitFactor
        totalTrades := totalTrades
        winningTrades := winningTrades
        losingTrades := totalTrades - winningTrades } }

/-! Helper notions for the accounting arguments: the entry cost tied up in a
list of positions and the summed recorded pnl of a list of trades. -/

/-- Total entry cost of a list of positions. -/
def posCost (l : List Trade) : ℚ :=
  (l.map (fun p => p.entryPrice * (p.quantity : ℚ))).sum

/-- Total recorded pnl of a list of trades. -/
def pnlSum (l : List Trade) : ℚ := (l.map pnlOr0).sum

lemma posCost_nil : posCost [] = 0 := rfl

lemma posCost_cons (p : Trade) (l : List Trade) :
    posCost (p :: l) = p.entryPrice * (p.quantity : ℚ) + posCost l := by
  simp [posCost]

lemma posCost_append (l₁ l₂ : List Trade) :
    posCost (l₁ ++ l₂) = posCost l₁ + posCost l₂ := by
  simp [posCost]

lemma pnlSum_cons (t : Trade) (l : List Trade) :
    pnlSum (t :: l) = pnlOr0 t + pnlSum l := by
  simp [pnlSum]

lemma pnlSum_append (l₁ l₂ : List Trade) :
    pnlSum (l₁ ++ l₂) = pnlSum l₁ + pnlSum l₂ := by
  simp [pnlSum]

/-! Facts about the global trading-day index pipeline. -/

lemma mem_insertAsc {x d : Nat} {l : List Nat} :
    x ∈ insertAsc d l ↔ x = d ∨ x ∈ l := by
  induction l with
  | nil => simp [insertAsc]
  | cons y ys ih =>
    by_cases h : d ≤ y
    · simp [insertAsc, h]
    · simp only [insertAsc, if_neg h, List.mem_cons, ih]
      tauto

lemma pairwise_insertAsc (d : Nat) (l : List Nat)
    (h : List.Pairwise (· ≤ ·) l) :
    List.Pairwise (· ≤ ·) (insertAsc d l) := by
  induction l with
  | nil => simp [insertAsc]
  | cons y ys ih =>
    obtain ⟨hy, hys⟩ := List.pairwise_cons.1 h
    by_cases hd : d ≤ y
    · simp only [insertAsc, if_pos hd]
      refine (List.pairwise_cons.2 ⟨?_, List.pairwise_cons.2 ⟨hy, hys⟩⟩)
      intro z hz
      rcases List.mem_cons.1 hz with rfl | hz
      · exact hd
      · exact le_trans hd (hy z hz)
    · simp only [insertAsc, if_neg hd]
      refine List.pairwise_cons.2 ⟨?_, ih hys⟩
      intro z hz
      rcases mem_insertAsc.1 hz with rfl | hz
      · exact le_of_not_le hd
      · exact hy z hz

lemma mem_sortAsc {x : Nat} {l : List Nat} : x ∈ sortAsc l ↔ x ∈ l := by
  induction l with
  | nil => simp [sortAsc]
  | cons y ys ih => simp [sortAsc, mem_insertAsc, ih]

lemma pairwise_sortAsc (l : List Nat) :
    List.Pairwise (· ≤ ·) (sortAsc l) := by
  induction l with
  | nil => simp [sortAsc]
  | cons y ys ih => exact pairwise_insertAsc y (sortAsc ys) ih

lemma mem_dedupSeen {x : Nat} {seen l : List Nat} :
    x ∈ dedupSeen seen l ↔ x ∈ l ∧ x ∉ seen := by
  induction l generalizing seen with
  | nil => simp [dedupSeen]
  | cons y ys ih =>
    by_cases h : seen.contains y
    · have hy : y ∈ seen := by
        simpa using h
      rw [dedupSeen, if_pos h, ih]
      simp only [List.mem_cons]
      constructor
      · rintro ⟨hx, hs⟩; exact ⟨Or.inr hx, hs⟩
      · rintro ⟨rfl | hx, hs⟩
        · exact absurd hy hs
        · exact ⟨hx, hs⟩
    · have hy : y ∉ seen := by
        simpa using h
      rw [dedupSeen, if_neg h]
      simp only [List.mem_cons, ih, List.mem_cons]
      constructor
      · rintro (rfl | ⟨hx, hs⟩)
        · exact ⟨Or.inl rfl, hy⟩
        · exact ⟨Or.inr hx, fun hc => hs (Or.inr hc)⟩
      · rintro ⟨rfl | hx, hs⟩
        · exact Or.inl rfl
        · by_cases hxy : x = y
          · exact Or.inl hxy
          · exact Or.inr ⟨hx, fun hc => hs (by simp [hxy] at hc; exact hc)⟩

lemma mem_dedupKeepFirst {x : Nat} {l : List Nat} :
    x ∈ dedupKeepFirst l ↔ x ∈ l := by
  simp [dedupKeepFirst, mem_dedupSeen]

lemma mem_allDatesOf {dataOf : String → List PriceData} {symbols : List String}
    {s : String} {bar : PriceData} (hs : s ∈ symbols) (hb : bar ∈ dataOf s) :
    bar.date ∈ allDatesOf dataOf symbols := by
  unfold allDatesOf
  rw [mem_sortAsc, mem_dedupKeepFirst]
  simp only [List.mem_flatten, List.mem_map]
  exact ⟨(dataOf s).map PriceData.date, ⟨s, hs, rfl⟩, List.mem_map.2 ⟨bar, hb, rfl⟩⟩

lemma mem_of_getLast?_eq {α : Type} {l : List α} {m : α}
    (h : l.getLast? = some m) : m ∈ l := by
  induction l with
  | nil => simp at h
  | cons y ys ih =>
    cases ys with
    | nil =>
      simp only [List.getLast?_singleton, Option.some_inj] at h
      simp [h]
    | cons z zs =>
      rw [List.getLast?_cons_cons] at h
      exact List.mem_cons_of_mem y (ih h)

lemma le_getLast_of_pairwise {l : List Nat} {m : Nat}
    (h : List.Pairwise (· ≤ ·) l) (hm : l.getLast? = some m) :
    ∀ x ∈ l, x ≤ m := by
  induction l with
  | nil => simp at hm
  | cons y ys ih =>
    obtain ⟨hy, hys⟩ := List.pairwise_cons.1 h
    intro x hx
    cases ys with
    | nil =>
      simp only [List.getLast?_singleton, Option.some_inj] at hm
      rcases List.mem_singleton.1 hx with rfl
      exact hm ▸ le_refl x
    | cons z zs =>
      have hm' : (z :: zs).getLast? = some m := by
        rw [List.getLast?_cons_cons] at hm
        exact hm
      rcases List.mem_cons.1 hx with rfl | hx
      · exact hy m (mem_of_getLast?_eq hm')
      · exact ih hys hm' x hx

lemma findBar_mem {series : List PriceData} {d : Nat} {bar : PriceData}
    (h : findBar series d = some bar) : bar ∈ series :=
  List.mem_of_find?_eq_some h

lemma findBar_date {series : List PriceData} {d : Nat} {bar : PriceData}
    (h : findBar series d = some bar) : bar.date = d := by
  have := List.find?_some h
  simpa using this

/-- In a series whose dates are strictly increasing and all bounded by `d`,
a bar found at date `d` is the last element of the series. -/
lemma getLast_eq_findBar {series : List PriceData} {d : Nat}
    (hSort : List.Pairwise (fun a b => a.date < b.date) series)
    (hLe : ∀ b ∈ series, b.date ≤ d)
    (hSome : (findBar series d).isSome) :
    series.getLast? = findBar series d := by
  induction series with
  | nil => simp [findBar] at hSome
  | cons x rest ih =>
    obtain ⟨hx, hrest⟩ := List.pairwise_cons.1 hSort
    by_cases hxd : x.date = d
    · have hrestNil : rest = [] := by
        cases rest with
        | nil => rfl
        | cons y ys =>
          exfalso
          have h1 : x.date < y.date := hx y (by simp)
          have h2 : y.date ≤ d := hLe y (by simp)
          omega
      subst hrestNil
      simp [findBar, List.find?, hxd]
    · have hfx : (x.date == d) = false := by
        rw [beq_eq_false_iff_ne]
        exact hxd
      have hstep : findBar (x :: rest) d = findBar rest d := by
        simp [findBar, List.find?, hfx]
      rw [hstep] at hSome ⊢
      cases rest with
      | nil => simp [findBar] at hSome
      | cons y ys =>
        rw [List.getLast?_cons_cons]
        exact ih hrest (fun b hb => hLe b (List.mem_cons_of_mem x hb)) hSome

/-! Facts about the close transition. -/

lemma processSells_accounting (sellConfig : RuleSet) (dataOf : String → List PriceData)
    (cd : Nat) (pd : Option Nat) :
    ∀ (positions : List Trade) (cash : ℚ),
      (processSells sellConfig dataOf cd pd positions cash).2.1 +
        posCost (processSells sellConfig dataOf cd pd positions cash).1 =
      cash + posCost positions +
        pnlSum (processSells sellConfig dataOf cd pd positions cash).2.2 := by
  intro positions
  induction positions with
  | nil => intro cash; simp [processSells, posCost, pnlSum]
  | cons p rest ih =>
    intro cash
    by_cases hclosed : p.status = "closed"
    · simp only [processSells, if_pos hclosed, posCost_cons]
      have := ih cash
      linarith [this]
    · simp only [processSells, if_neg hclosed]
      cases hbar : findBar (dataOf p.symbol) cd with
      | none =>
        simp only [posCost_cons]
        have := ih cash
        linarith [this]
      | some bar =>
        simp only
        by_cases hsell : shouldSell sellConfig bar
            (pd.bind (fun x => findBar (dataOf p.symbol) x)) (some p) = true
        · simp only [if_pos hsell, posCost_cons, pnlSum_cons, pnlOr0, Option.getD_some]
          have := ih (cash + bar.close * (p.quantity : ℚ))
          linarith [this]
        · simp only [if_neg hsell, posCost_cons]
          have := ih cash
          linarith [this]

lemma processSells_mem {sellConfig : RuleSet} {dataOf : String → List PriceData}
    {cd : Nat} {pd : Option Nat} :
    ∀ {positions : List Trade} {cash : ℚ} {p : Trade},
      p ∈ (processSells sellConfig dataOf cd pd positions cash).1 → p ∈ positions := by
  intro positions
  induction positions with
  | nil => intro cash p h; simp [processSells] at h
  | cons q rest ih =>
    intro cash p h
    by_cases hclosed : q.status = "closed"
    · simp only [processSells, if_pos hclosed] at h
      rcases List.mem_cons.1 h with rfl | h
      · exact List.mem_cons_self p rest
      · exact List.mem_cons_of_mem q (ih h)
    · simp only [processSells, if_neg hclosed] at h
      cases hbar : findBar (dataOf q.symbol) cd with
      | none =>
        rw [hbar] at h
        simp only at h
        rcases List.mem_cons.1 h with rfl | h
        · exact List.mem_cons_self p rest
        · exact List.mem_cons_of_mem q (ih h)
      | some bar =>
        rw [hbar] at h
        simp only at h
        by_cases hsell : shouldSell sellConfig bar
            (pd.bind (fun x => findBar (dataOf q.symbol) x)) (some q) = true
        · rw [if_pos hsell] at h
          exact List.mem_cons_of_mem q (ih h)
        · rw [if_neg hsell] at h
          rcases List.mem_cons.1 h with rfl | h
          · exact List.mem_cons_self p rest
          · exact List.mem_cons_of_mem q (ih h)

lemma processSells_length (sellConfig : RuleSet) (dataOf : String → List PriceData)
    (cd : Nat) (pd : Option Nat) :
    ∀ (positions : List Trade) (cash : ℚ),
      (processSells sellConfig dataOf cd pd positions cash).1.length ≤ positions.length := by
  intro positions
  induction positions with
  | nil => intro cash; simp [processSells]
  | cons q rest ih =>
    intro cash
    by_cases hclosed : q.status = "closed"
    · simp only [processSells, if_pos hclosed, List.length_cons]
      exact Nat.succ_le_succ (ih cash)
    · simp only [processSells, if_neg hclosed]
      cases hbar : findBar (dataOf q.symbol) cd with
      | none =>
        simp only [List.length_cons]
        exact Nat.succ_le_succ (ih cash)
      | some bar =>
        simp only
        by_cases hsell : shouldSell sellConfig bar
            (pd.bind (fun x => findBar (dataOf q.symbol) x)) (some q) = true
        · rw [if_pos hsell]
          exact le_trans (ih _) (Nat.le_succ _)
        · rw [if_neg hsell]
          exact Nat.succ_le_succ (ih cash)

lemma processSells_cash_le (sellConfig : RuleSet) (dataOf : String → List PriceData)
    (cd : Nat) (pd : Option Nat) :
    ∀ (positions : List Trade) (cash : ℚ),
      (∀ p ∈ positions, 0 < p.quantity) →
      (∀ p ∈ positions, ∀ bar ∈ dataOf p.symbol, 0 < bar.close) →
      cash ≤ (processSells sellConfig dataOf cd pd positions cash).2.1 := by
  intro positions
  induction positions with
  | nil => intro cash _ _; simp [processSells]
  | cons q rest ih =>
    intro cash hq hc
    have hqrest : ∀ p ∈ rest, 0 < p.quantity :=
      fun p hp => hq p (List.mem_cons_of_mem q hp)
    have hcrest : ∀ p ∈ rest, ∀ bar ∈ dataOf p.symbol, 0 < bar.close :=
      fun p hp => hc p (List.mem_cons_of_mem q hp)
    by_cases hclosed : q.status = "closed"
    · simp only [processSells, if_pos hclosed]
      exact ih cash hqrest hcrest
    · simp only [processSells, if_neg hclosed]
      cases hbar : findBar (dataOf q.symbol) cd with
      | none =>
        simp only
        exact ih cash hqrest hcrest
      | some bar =>
        simp only
        by_cases hsell : shouldSell sellConfig bar
            (pd.bind (fun x => findBar (dataOf q.symbol) x)) (some q) = true
        · rw [if_pos hsell]
          have hcredit : 0 < bar.close * (q.quantity : ℚ) := by
            have h1 : 0 < bar.close :=
              hc q (List.mem_cons_self q rest) bar (findBar_mem hbar)
            have h2 : (0 : ℚ) < (q.quantity : ℚ) := by
              exact_mod_cast hq q (List.mem_cons_self q rest)
            positivity
          calc cash ≤ cash + bar.close * (q.quantity : ℚ) := by linarith
            _ ≤ _ := ih _ hqrest hcrest
        · rw [if_neg hsell]
          exact ih cash hqrest hcrest

/-! Facts about the open transition. -/

/-- The fixed per-trade allocation `positionSize% * initialCapital`. -/
def positionValueOf (strategy : Strategy) : ℚ :=
  strategy.simulationConfig.positionSize / 100 * strategy.simulationConfig.initialCapital

lemma processBuys_accounting (strategy : Strategy) (dataOf : String → List PriceData)
    (cd : Nat) (pd : Option Nat) :
    ∀ (syms : List String) (positions : List Trade) (cash : ℚ),
      (processBuys strategy dataOf cd pd syms positions cash).2 +
        posCost (processBuys strategy dataOf cd pd syms positions cash).1 =
      cash + posCost positions := by
  intro syms
  induction syms with
  | nil => intro positions cash; simp [processBuys]
  | cons sym rest ih =>
    intro positions cash
    by_cases hmax : positions.length ≥ strategy.simulationConfig.maxPositions
    · simp [processBuys, if_pos hmax]
    · simp only [processBuys, if_neg hmax]
      cases hbar : findBar (dataOf sym) cd with
      | none => exact ih positions cash
      | some bar =>
        simp only
        by_cases hbuy : ((match strategy.scannerConfig.conditions with
            | none => true
            | some conds => conds.all (fun condition =>
                evaluateCondition condition bar
                  (pd.bind (fun x => findBar (dataOf sym) x)))) &&
            shouldBuy strategy.buyConfig bar
              (pd.bind (fun x => findBar (dataOf sym) x))) = true
        · rw [if_pos hbuy]
          by_cases hcash : cash < strategy.simulationConfig.positionSize / 100 *
              strategy.simulationConfig.initialCapital
          · rw [if_pos hcash]
            exact ih positions cash
          · rw [if_neg hcash]
            by_cases hq : (⌊strategy.simulationConfig.positionSize / 100 *
                strategy.simulationConfig.initialCapital / bar.close⌋ : ℤ) = 0
            · rw [if_pos hq]
              exact ih positions cash
            · rw [if_neg hq]
              rw [ih, posCost_append, posCost_cons, posCost_nil]
              simp only
              ring
        · rw [if_neg hbuy]
          exact ih positions cash

lemma processBuys_mem {strategy : Strategy} {dataOf : String → List PriceData}
    {cd : Nat} {pd : Option Nat} :
    ∀ {syms : List String} {positions : List Trade} {cash : ℚ} {p : Trade},
      p ∈ (processBuys strategy dataOf cd pd syms positions cash).1 →
      p ∈ positions ∨
        (p.symbol ∈ syms ∧ p.status = "open" ∧ p.entryDate = cd ∧
          ∃ bar, findBar (dataOf p.symbol) cd = some bar ∧
            p.entryPrice = bar.close ∧
            p.quantity = ⌊positionValueOf strategy / bar.close⌋ ∧
            p.quantity ≠ 0) := by
  intro syms
  induction syms with
  | nil =>
    intro positions cash p h
    simp only [processBuys] at h
    exact Or.inl h
  | cons sym rest ih =>
    intro positions cash p h
    by_cases hmax : positions.length ≥ strategy.simulationConfig.maxPositions
    · simp only [processBuys, if_pos hmax] at h
      exact Or.inl h
    · simp only [processBuys, if_neg hmax] at h
      cases hbar : findBar (dataOf sym) cd with
      | none =>
        rw [hbar] at h
        simp only at h
        rcases ih h with hp | ⟨hs, hrest⟩
        · exact Or.inl hp
        · exact Or.inr ⟨List.mem_cons_of_mem sym hs, hrest⟩
      | some bar =>
        rw [hbar] at h
        simp only at h
        by_cases hbuy : ((match strategy.scannerConfig.conditions with
            | none => true
            | some conds => conds.all (fun condition =>
                evaluateCondition condition bar
                  (pd.bind (fun x => findBar (dataOf sym) x)))) &&
            shouldBuy strategy.buyConfig bar
              (pd.bind (fun x => findBar (dataOf sym) x))) = true
        · rw [if_pos hbuy] at h
          by_cases hcash : cash < strategy.simulationConfig.positionSize / 100 *
              strategy.simulationConfig.initialCapital
          · rw [if_pos hcash] at h
            rcases ih h with hp | ⟨hs, hrest⟩
            · exact Or.inl hp
            · exact Or.inr ⟨List.mem_cons_of_mem sym hs, hrest⟩
          · rw [if_neg hcash] at h
            by_cases hq : (⌊strategy.simulationConfig.positionSize / 100 *
                strategy.simulationConfig.initialCapital / bar.close⌋ : ℤ) = 0
            · rw [if_pos hq] at h
              rcases ih h with hp | ⟨hs, hrest⟩
              · exact Or.inl hp
              · exact Or.inr ⟨List.mem_cons_of_mem sym hs, hrest⟩
            · rw [if_neg hq] at h
              rcases ih h with hp | ⟨hs, hrest⟩
              · rcases List.mem_append.1 hp with hp | hp
                · exact Or.inl hp
                · rcases List.mem_singleton.1 hp with rfl
                  refine Or.inr ⟨List.mem_cons_self _ _, rfl, rfl, bar, ?_, rfl, ?_, hq⟩
                  · exact hbar
                  · rfl
              · exact Or.inr ⟨List.mem_cons_of_mem sym hs, hrest⟩
        · rw [if_neg hbuy] at h
          rcases ih h with hp | ⟨hs, hrest⟩
          · exact Or.inl hp
          · exact Or.inr ⟨List.mem_cons_of_mem sym hs, hrest⟩

lemma processBuys_length (strategy : Strategy) (dataOf : String → List PriceData)
    (cd : Nat) (pd : Option Nat) :
    ∀ (syms : List String) (positions : List Trade) (cash : ℚ),
      positions.length ≤ strategy.simulationConfig.maxPositions →
      (processBuys strategy dataOf cd pd syms positions cash).1.length ≤
        strategy.simulationConfig.maxPositions := by
  intro syms
  induction syms with
  | nil => intro positions cash h; simpa [processBuys] using h
  | cons sym rest ih =>
    intro positions cash h
    by_cases hmax : positions.length ≥ strategy.simulationConfig.maxPositions
    · simpa [processBuys, if_pos hmax] using h
    · have hlt : positions.length < strategy.simulationConfig.maxPositions :=
        Nat.lt_of_not_ge hmax
      simp only [processBuys, if_neg hmax]
      cases hbar : findBar (dataOf sym) cd with
      | none => exact ih positions cash h
      | some bar =>
        simp only
        by_cases hbuy : ((match strategy.scannerConfig.conditions with
            | none => true
            | some conds => conds.all (fun condition =>
                evaluateCondition condition bar
                  (pd.bind (fun x => findBar (dataOf sym) x)))) &&
            shouldBuy strategy.buyConfig bar
              (pd.bind (fun x => findBar (dataOf sym) x))) = true
        · rw [if_pos hbuy]
          by_cases hcash : cash < strategy.simulationConfig.positionSize / 100 *
              strategy.simulationConfig.initialCapital
          · rw [if_pos hcash]
            exact ih positions cash h
          · rw [if_neg hcash]
            by_cases hq : (⌊strategy.simulationConfig.positionSize / 100 *
                strategy.simulationConfig.initialCapital / bar.close⌋ : ℤ) = 0
            · rw [if_pos hq]
              exact ih positions cash h
            · rw [if_neg hq]
              refine ih _ _ ?_
              rw [List.length_append, List.length_singleton]
              omega
        · rw [if_neg hbuy]
          exact ih positions cash h

lemma processBuys_cash_nonneg (strategy : Strategy) (dataOf : String → List PriceData)
    (cd : Nat) (pd : Option Nat)
    (hIC : 0 ≤ strategy.simulationConfig.initialCapital)
    (hPS : 0 ≤ strategy.simulationConfig.positionSize) :
    ∀ (syms : List String) (positions : List Trade) (cash : ℚ),
      (∀ s ∈ syms, ∀ bar ∈ dataOf s, 0 < bar.close) →
      0 ≤ cash →
      0 ≤ (processBuys strategy dataOf cd pd syms positions cash).2 := by
  have hPV : 0 ≤ strategy.simulationConfig.positionSize / 100 *
      strategy.simulationConfig.initialCapital := by positivity
  intro syms
  induction syms with
  | nil => intro positions cash _ hc; simpa [processBuys] using hc
  | cons sym rest ih =>
    intro positions cash hcl hc
    have hclrest : ∀ s ∈ rest, ∀ bar ∈ dataOf s, 0 < bar.close :=
      fun s hs => hcl s (List.mem_cons_of_mem sym hs)
    by_cases hmax : positions.length ≥ strategy.simulationConfig.maxPositions
    · simpa [processBuys, if_pos hmax] using hc
    · simp only [processBuys, if_neg hmax]
      cases hbar : findBar (dataOf sym) cd with
      | none => exact ih positions cash hclrest hc
      | some bar =>
        simp only
        by_cases hbuy : ((match strategy.scannerConfig.conditions with
            | none => true
            | some conds => conds.all (fun condition =>
                evaluateCondition condition bar
                  (pd.bind (fun x => findBar (dataOf sym) x)))) &&
            shouldBuy strategy.buyConfig bar
              (pd.bind (fun x => findBar (dataOf sym) x))) = true
        · rw [if_pos hbuy]
          by_cases hcash : cash < strategy.simulationConfig.positionSize / 100 *
              strategy.simulationConfig.initialCapital
          · rw [if_pos hcash]
            exact ih positions cash hclrest hc
          · rw [if_neg hcash]
            by_cases hq : (⌊strategy.simulationConfig.positionSize / 100 *
                strategy.simulationConfig.initialCapital / bar.close⌋ : ℤ) = 0
            · rw [if_pos hq]
              exact ih positions cash hclrest hc
            · rw [if_neg hq]
              refine ih _ _ hclrest ?_
              have hclose : 0 < bar.close :=
                hcl sym (List.mem_cons_self sym rest) bar (findBar_mem hbar)
              have hfloor : (⌊strategy.simulationConfig.positionSize / 100 *
                  strategy.simulationConfig.initialCapital / bar.close⌋ : ℚ) ≤
                  strategy.simulationConfig.positionSize / 100 *
                    strategy.simulationConfig.initialCapital / bar.close :=
                Int.floor_le _
              have hdebit : bar.close * ((⌊strategy.simulationConfig.positionSize / 100 *
                  strategy.simulationConfig.initialCapital / bar.close⌋ : ℤ) : ℚ) ≤
                  strategy.simulationConfig.positionSize / 100 *
                    strategy.simulationConfig.initialCapital := by
                have h2 := mul_le_mul_of_nonneg_left hfloor (le_of_lt hclose)
                rwa [mul_div_cancel₀ _ (ne_of_gt hclose)] at h2
              have hcashge : strategy.simulationConfig.positionSize / 100 *
                  strategy.simulationConfig.initialCapital ≤ cash :=
                le_of_not_lt hcash
              linarith
        · rw [if_neg hbuy]
          exact ih positions cash hclrest hc

/-! The equity snapshot as a sum of per-position marks. -/

/-- The mark-to-market contribution of one open position on a given day:
today's close times the quantity, or 0 when the symbol has no bar today. -/
def markValue (dataOf : String → List PriceData) (cd : Nat) (p : Trade) : ℚ :=
  match findBar (dataOf p.symbol) cd with
  | some bar => bar.close * (p.quantity : ℚ)
  | none => 0

lemma portfolioValue_eq_sum (dataOf : String → List PriceData) (cd : Nat) :
    ∀ (positions : List Trade) (cash : ℚ),
      portfolioValue dataOf cd positions cash =
        cash + (positions.map (markValue dataOf cd)).sum := by
  intro positions
  induction positions with
  | nil => intro cash; simp [portfolioValue]
  | cons p rest ih =>
    intro cash
    have hstep : portfolioValue dataOf cd (p :: rest) cash =
        portfolioValue dataOf cd rest (cash + markValue dataOf cd p) := by
      simp only [portfolioValue, List.foldl_cons, markValue]
      cases findBar (dataOf p.symbol) cd with
      | none => simp
      | some bar => simp
    rw [hstep, ih]
    simp [markValue]
    ring

/-! The day loop: a generic invariant principle and the shape of the
accumulated equity curve. -/

lemma simLoop_inv (strategy : Strategy) (dataOf : String → List PriceData)
    (P : SimState → Prop)
    (hstep : ∀ d pd st, P st → P (processDay strategy dataOf d pd st)) :
    ∀ (l : List Nat) (pd : Option Nat) (st : SimState),
      P st → P (simLoop strategy dataOf l pd st) := by
  intro l
  induction l with
  | nil => intro pd st h; simpa [simLoop] using h
  | cons d rest ih =>
    intro pd st h
    exact ih (some d) _ (hstep d pd st h)

lemma simLoop_equity_getLast (strategy : Strategy) (dataOf : String → List PriceData) :
    ∀ (l : List Nat) (pd : Option Nat) (st : SimState) (D : Nat),
      l.getLast? = some D →
      (simLoop strategy dataOf l pd st).equityCurve.getLast? =
        some { date := D,
               equity := portfolioValue dataOf D
                 (simLoop strategy dataOf l pd st).positions
                 (simLoop strategy dataOf l pd st).cash } := by
  intro l
  induction l with
  | nil => intro pd st D h; simp at h
  | cons d rest ih =>
    intro pd st D h
    cases rest with
    | nil =>
      simp only [List.getLast?_singleton, Option.some_inj] at h
      subst h
      simp only [simLoop, processDay]
      exact List.getLast?_concat _
    | cons y ys =>
      rw [List.getLast?_cons_cons] at h
      simp only [simLoop]
      exact ih (some d) _ D h

/-- Day-boundary position-count invariant, fed to `simLoop_inv`. -/
lemma processDay_length (strategy : Strategy) (dataOf : String → List PriceData)
    (d : Nat) (pd : Option Nat) (st : SimState)
    (h : st.positions.length ≤ strategy.simulationConfig.maxPositions) :
    (processDay strategy dataOf d pd st).positions.length ≤
      strategy.simulationConfig.maxPositions := by
  simp only [processDay]
  exact processBuys_length strategy dataOf d pd _ _ _
    (le_trans (processSells_length strategy.sellConfig dataOf d pd st.positions st.cash) h)

/-- C3: during every run the number of open positions never exceeds
`maxPositions`: it holds at every day boundary (hence in particular right
after each day's open transition, whose output is the day's final position
list); the close transition never grows the position list; the open
transition preserves the bound from any intermediate state; and once the
count has reached `maxPositions` the open transition opens nothing at all
(the source's `break`), whatever symbols remain. -/
theorem claim_C3_max_positions (strategy : Strategy) (dataOf : String → List PriceData) :
    (∀ i : Nat, (simStateAt strategy dataOf i).positions.length ≤
        strategy.simulationConfig.maxPositions) ∧
    (∀ (cd : Nat) (pd : Option Nat) (positions : List Trade) (cash : ℚ),
      (processSells strategy.sellConfig dataOf cd pd positions cash).1.length ≤
        positions.length) ∧
    (∀ (cd : Nat) (pd : Option Nat) (syms : List String) (positions : List Trade) (cash : ℚ),
      positions.length ≤ strategy.simulationConfig.maxPositions →
      (processBuys strategy dataOf cd pd syms positions cash).1.length ≤
        strategy.simulationConfig.maxPositions) ∧
    (∀ (cd : Nat) (pd : Option Nat) (syms : List String) (positions : List Trade) (cash : ℚ),
      strategy.simulationConfig.maxPositions ≤ positions.length →
      processBuys strategy dataOf cd pd syms positions cash = (positions, cash)) := by
  refine ⟨?_, ?_, ?_, ?_⟩
  · intro i
    exact simLoop_inv strategy dataOf
      (fun st => st.positions.length ≤ strategy.simulationConfig.maxPositions)
      (fun d pd st h => processDay_length strategy dataOf d pd st h)
      _ none (initState strategy) (by simp [initState])
  · intro cd pd positions cash
    exact processSells_length strategy.sellConfig dataOf cd pd positions cash
  · intro cd pd syms positions cash h
    induction syms generalizing positions cash with
    | nil => simpa [processBuys] using h
    | cons sym rest ih => exact processBuys_length strategy dataOf cd pd (sym :: rest) positions cash h
  · intro cd pd syms positions cash h
    cases syms with
    | nil => simp [processBuys]
    | cons sym rest =>
      rw [processBuys, if_pos (show positions.length ≥
        strategy.simulationConfig.maxPositions from h)]

/-- A buy rule set with no conditions never signals a buy. -/
lemma shouldBuy_of_empty {buyConfig : RuleSet}
    (h : buyConfig.conditions = none ∨ buyConfig.conditions = some ([])) :
    ∀ (bar : PriceData) (prev : Option PriceData), shouldBuy buyConfig bar prev = false := by
  intro bar prev
  rcases h with h | h <;> simp [shouldBuy, h]

/-- When `shouldBuy` is identically false, the open transition is inert. -/
lemma processBuys_of_no_buy (strategy : Strategy) (dataOf : String → List PriceData)
    (cd : Nat) (pd : Option Nat)
    (hSB : ∀ (bar : PriceData) (prev : Option PriceData),
      shouldBuy strategy.buyConfig bar prev = false) :
    ∀ (syms : List String) (positions : List Trade) (cash : ℚ),
      processBuys strategy dataOf cd pd syms positions cash = (positions, cash) := by
  intro syms
  induction syms with
  | nil => intro positions cash; simp [processBuys]
  | cons sym rest ih =>
    intro positions cash
    by_cases hmax : positions.length ≥ strategy.simulationConfig.maxPositions
    · simp [processBuys, if_pos hmax]
    · simp only [processBuys, if_neg hmax]
      cases hbar : findBar (dataOf sym) cd with
      | none => exact ih positions cash
      | some bar =>
        simp only
        rw [if_neg, ih positions cash]
        simp [hSB]

/-- C8: a configuration whose buy rule set has no conditions produces zero
trades and an equity curve pinned at `initialCapital` on every simulated
trading day (positions are never opened, cash never moves). -/
theorem claim_C8_empty_buy_rules (strategy : Strategy) (dataOf : String → List PriceData)
    (hEmpty : strategy.buyConfig.conditions = none ∨
      strategy.buyConfig.conditions = some ([])) :
    (runSimulation strategy dataOf).trades = [] ∧
    (∀ pt ∈ (runSimulation strategy dataOf).equityCurve,
      pt.equity = strategy.simulationConfig.initialCapital) := by
  have hSB := shouldBuy_of_empty hEmpty
  have hinv : ∀ l pd st, (st.positions = [] ∧
      st.cash = strategy.simulationConfig.initialCapital ∧ st.allTrades = [] ∧
      ∀ pt ∈ st.equityCurve, pt.equity = strategy.simulationConfig.initialCapital) →
      ((simLoop strategy dataOf l pd st).positions = [] ∧
        (simLoop strategy dataOf l pd st).cash = strategy.simulationConfig.initialCapital ∧
        (simLoop strategy dataOf l pd st).allTrades = [] ∧
        ∀ pt ∈ (simLoop strategy dataOf l pd st).equityCurve,
          pt.equity = strategy.simulationConfig.initialCapital) := by
    intro l pd st h
    refine simLoop_inv strategy dataOf (fun s => s.positions = [] ∧
      s.cash = strategy.simulationConfig.initialCapital ∧ s.allTrades = [] ∧
      ∀ pt ∈ s.equityCurve, pt.equity = strategy.simulationConfig.initialCapital)
      ?_ l pd st h
    intro d pd' st' h'
    obtain ⟨hpos, hcash, htr, hcurve⟩ := h'
    have hsell : processSells strategy.sellConfig dataOf d pd' []
        strategy.simulationConfig.initialCapital =
        ([], strategy.simulationConfig.initialCapital, []) := rfl
    have hbuy := processBuys_of_no_buy strategy dataOf d pd' hSB
      strategy.simulationConfig.symbols [] strategy.simulationConfig.initialCapital
    constructor
    · simp [processDay, hpos, hcash, hsell, hbuy]
    constructor
    · simp [processDay, hpos, hcash, hsell, hbuy]
    constructor
    · simp [processDay, hpos, hcash, hsell, hbuy, htr]
    · intro pt hpt
      simp only [processDay, hpos, hcash, hsell, hbuy] at hpt
      rcases List.mem_append.1 hpt with hpt | hpt
      · exact hcurve pt hpt
      · rcases List.mem_singleton.1 hpt with rfl
        simp [portfolioValue]
  have hfin := hinv (allDatesOf dataOf strategy.simulationConfig.symbols) none
    (initState strategy) (by simp [initState])
  obtain ⟨hpos, hcash, htr, hcurve⟩ := hfin
  constructor
  · show (finalLoopState strategy dataOf).allTrades ++
      finalizeRun dataOf (finalLoopState strategy dataOf).positions = []
    rw [show finalLoopState strategy dataOf = simLoop strategy dataOf
      (allDatesOf dataOf strategy.simulationConfig.symbols) none (initState strategy) from rfl]
    rw [htr, hpos]
    rfl
  · intro pt hpt
    exact hcurve pt hpt

/-- The portfolio invariant used for the cash-safety claim: cash is
non-negative and every open position has positive quantity and a configured
symbol. -/
def cashInv (strategy : Strategy) (st : SimState) : Prop :=
  0 ≤ st.cash ∧ ∀ p ∈ st.positions,
    0 < p.quantity ∧ p.symbol ∈ strategy.simulationConfig.symbols

lemma processDay_cashInv (strategy : Strategy) (dataOf : String → List PriceData)
    (hIC : 0 ≤ strategy.simulationConfig.initialCapital)
    (hPS : 0 ≤ strategy.simulationConfig.positionSize)
    (hClose : ∀ s ∈ strategy.simulationConfig.symbols, ∀ bar ∈ dataOf s, 0 < bar.close)
    (d : Nat) (pd : Option Nat) (st : SimState) (h : cashInv strategy st) :
    cashInv strategy (processDay strategy dataOf d pd st) := by
  obtain ⟨hc, hp⟩ := h
  have hq : ∀ p ∈ st.positions, 0 < p.quantity := fun p hm => (hp p hm).1
  have hsym : ∀ p ∈ st.positions, ∀ bar ∈ dataOf p.symbol, 0 < bar.close :=
    fun p hm => hClose p.symbol (hp p hm).2
  have hsellcash : st.cash ≤
      (processSells strategy.sellConfig dataOf d pd st.positions st.cash).2.1 :=
    processSells_cash_le strategy.sellConfig dataOf d pd st.positions st.cash hq hsym
  have hsellpos : ∀ p ∈ (processSells strategy.sellConfig dataOf d pd st.positions st.cash).1,
      0 < p.quantity ∧ p.symbol ∈ strategy.simulationConfig.symbols :=
    fun p hm => hp p (processSells_mem hm)
  constructor
  · show 0 ≤ (processBuys strategy dataOf d pd strategy.simulationConfig.symbols
      (processSells strategy.sellConfig dataOf d pd st.positions st.cash).1
      (processSells strategy.sellConfig dataOf d pd st.positions st.cash).2.1).2
    exact processBuys_cash_nonneg strategy dataOf d pd hIC hPS
      strategy.simulationConfig.symbols _ _ hClose (le_trans hc hsellcash)
  · intro p hm
    have hm' : p ∈ (processBuys strategy dataOf d pd strategy.simulationConfig.symbols
        (processSells strategy.sellConfig dataOf d pd st.positions st.cash).1
        (processSells strategy.sellConfig dataOf d pd st.positions st.cash).2.1).1 := hm
    rcases processBuys_mem hm' with hold | ⟨hs, _, _, bar, hbar, _, hqty, hne⟩
    · exact hsellpos p hold
    · refine ⟨?_, hs⟩
      have hclose : 0 < bar.close := hClose p.symbol hs bar (findBar_mem hbar)
      have hPV : 0 ≤ positionValueOf strategy := by
        unfold positionValueOf
        positivity
      have h0 : 0 ≤ (⌊positionValueOf strategy / bar.close⌋ : ℤ) :=
        Int.floor_nonneg.2 (div_nonneg hPV (le_of_lt hclose))
      rw [hqty]
      rcases lt_or_eq_of_le h0 with hlt | heq
      · exact hlt
      · exact absurd (hqty.trans heq.symm) hne

/-- C9: with a non-negative initial capital (and the data-model contracts —
non-negative `positionSize`, strictly positive closes), cash never goes
negative at any point of the loop: it is non-negative at every day boundary,
the close transition only ever credits cash, and the open transition keeps
cash non-negative from any intermediate state because a buy happens only
when `positionValue ≤ cash` and debits `entryPrice * quantity =
close * floor(positionValue / close) ≤ positionValue`. -/
theorem claim_C9_cash_never_negative (strategy : Strategy)
    (dataOf : String → List PriceData)
    (hIC : 0 ≤ strategy.simulationConfig.initialCapital)
    (hPS : 0 ≤ strategy.simulationConfig.positionSize)
    (hClose : ∀ s ∈ strategy.simulationConfig.symbols, ∀ bar ∈ dataOf s, 0 < bar.close) :
    (∀ i : Nat, 0 ≤ (simStateAt strategy dataOf i).cash) ∧
    (∀ (cd : Nat) (pd : Option Nat) (positions : List Trade) (cash : ℚ),
      (∀ p ∈ positions, 0 < p.quantity ∧
        p.symbol ∈ strategy.simulationConfig.symbols) →
      cash ≤ (processSells strategy.sellConfig dataOf cd pd positions cash).2.1) ∧
    (∀ (cd : Nat) (pd : Option Nat) (positions : List Trade) (cash : ℚ),
      0 ≤ cash →
      0 ≤ (processBuys strategy dataOf cd pd strategy.simulationConfig.symbols
        positions cash).2) := by
  refine ⟨?_, ?_, ?_⟩
  · intro i
    have := simLoop_inv strategy dataOf (cashInv strategy)
      (processDay_cashInv strategy dataOf hIC hPS hClose)
      ((allDatesOf dataOf strategy.simulationConfig.symbols).take i) none
      (initState strategy) (by exact ⟨hIC, by simp [initState]⟩)
    exact this.1
  · intro cd pd positions cash hp
    exact processSells_cash_le strategy.sellConfig dataOf cd pd positions cash
      (fun p hm => (hp p hm).1)
      (fun p hm => hClose p.symbol (hp p hm).2)
  · intro cd pd positions cash hc
    exact processBuys_cash_nonneg strategy dataOf cd pd hIC hPS
      strategy.simulationConfig.symbols positions cash hClose hc

/-! Drawdown facts. -/

lemma drawdownsFrom_nonneg {peak : ℚ} (hpeak : 0 < peak) :
    ∀ (curve : List EquityPoint), ∀ dp ∈ drawdownsFrom peak curve, 0 ≤ dp.drawdown := by
  intro curve
  induction curve generalizing peak with
  | nil => intro dp hdp; simp [drawdownsFrom] at hdp
  | cons point rest ih =>
    intro dp hdp
    simp only [drawdownsFrom, List.mem_cons] at hdp
    by_cases hgt : point.equity > peak
    · rcases hdp with rfl | hdp
      · simp only [if_pos hgt]
        have : (point.equity - point.equity) / point.equity * 100 = 0 := by ring_nf
        simp [this]
      · rw [if_pos hgt] at hdp
        exact ih (lt_trans hpeak hgt) dp hdp
    · rcases hdp with rfl | hdp
      · simp only [if_neg hgt]
        have hle : point.equity ≤ peak := le_of_not_lt hgt
        have h1 : 0 ≤ (peak - point.equity) / peak :=
          div_nonneg (by linarith) (le_of_lt hpeak)
        positivity
      · rw [if_neg hgt] at hdp
        exact ih hpeak dp hdp

lemma le_foldr_max (l : List ℚ) : ∀ x ∈ l, x ≤ l.foldr max 0 := by
  induction l with
  | nil => intro x hx; simp at hx
  | cons a rest ih =>
    intro x hx
    rcases List.mem_cons.1 hx with rfl | hx
    · exact le_max_left _ _
    · exact le_trans (ih x hx) (le_max_right _ _)

lemma foldr_max_mem_of_nonneg (l : List ℚ) (hl : l ≠ [])
    (hpos : ∀ x ∈ l, 0 ≤ x) : l.foldr max 0 ∈ l := by
  induction l with
  | nil => exact absurd rfl hl
  | cons a rest ih =>
    cases rest with
    | nil =>
      have ha : 0 ≤ a := hpos a (List.mem_singleton.2 rfl)
      simp [max_eq_left ha]
    | cons b t =>
      have hrest : (b :: t).foldr max 0 ∈ b :: t :=
        ih (by simp) (fun x hx => hpos x (List.mem_cons_of_mem a hx))
      show max a ((b :: t).foldr max 0) ∈ a :: b :: t
      rcases le_total ((b :: t).foldr max 0) a with h | h
      · rw [max_eq_left h]; exact List.mem_cons_self _ _
      · rw [max_eq_right h]; exact List.mem_cons_of_mem a hrest

/-- C7: with a positive initial capital, every point of the returned
drawdown series (computed from the running peak seeded at `initialCapital`)
is non-negative, and `maxDrawdown` is the maximum of the drawdown series: an
upper bound attained at some point when the series is non-empty, and 0 when
the series is empty. -/
theorem claim_C7_drawdowns_nonneg_max (strategy : Strategy)
    (dataOf : String → List PriceData)
    (hIC : 0 < strategy.simulationConfig.initialCapital) :
    (∀ dp ∈ (runSimulation strategy dataOf).drawdowns, 0 ≤ dp.drawdown) ∧
    (∀ dp ∈ (runSimulation strategy dataOf).drawdowns,
      dp.drawdown ≤ (runSimulation strategy dataOf).metrics.maxDrawdown) ∧
    ((runSimulation strategy dataOf).drawdowns = [] →
      (runSimulation strategy dataOf).metrics.maxDrawdown = 0) ∧
    ((runSimulation strategy dataOf).drawdowns ≠ [] →
      ∃ dp ∈ (runSimulation strategy dataOf).drawdowns,
        (runSimulation strategy dataOf).metrics.maxDrawdown = dp.drawdown) := by
  have hdd : (runSimulation strategy dataOf).drawdowns =
      drawdownsFrom strategy.simulationConfig.initialCapital
        (finalLoopState strategy dataOf).equityCurve := rfl
  have hmax : (runSimulation strategy dataOf).metrics.maxDrawdown =
      maxDrawdownOf (runSimulation strategy dataOf).drawdowns := rfl
  have hnn : ∀ dp ∈ (runSimulation strategy dataOf).drawdowns, 0 ≤ dp.drawdown := by
    rw [hdd]
    exact drawdownsFrom_nonneg hIC _
  refine ⟨hnn, ?_, ?_, ?_⟩
  · intro dp hdp
    rw [hmax]
    unfold maxDrawdownOf
    exact le_foldr_max _ _ (List.mem_map.2 ⟨dp, hdp, rfl⟩)
  · intro hnil
    rw [hmax, hnil]
    rfl
  · intro hne
    rw [hmax]
    unfold maxDrawdownOf
    have hmapne : ((runSimulation strategy dataOf).drawdowns.map
        DrawdownPoint.drawdown) ≠ [] := by
      simpa using hne
    have hmem := foldr_max_mem_of_nonneg _ hmapne (by
      intro x hx
      rcases List.mem_map.1 hx with ⟨dp, hdp, rfl⟩
      exact hnn dp hdp)
    rcases List.mem_map.1 hmem with ⟨dp, hdp, heq⟩
    exact ⟨dp, hdp, heq.symm⟩

/-! Counting facts for the metrics block. -/

lemma length_filter_add_length_filter_not {α : Type} (l : List α) (p : α → Bool) :
    (l.filter p).length + (l.filter (fun a => !p a)).length = l.length := by
  induction l with
  | nil => simp
  | cons a rest ih =>
    by_cases h : p a = true
    · simp [List.filter_cons, h, ih]
      omega
    · have h' : p a = false := by
        cases hpa : p a
        · rfl
        · exact absurd hpa h
      simp [List.filter_cons, h', ih]
      omega

/-- C10: in every run's metrics, `losingTrades = totalTrades -
winningTrades`, which counts a zero-pnl closed trade as losing, while that
same trade contributes to neither `grossProfit` nor `grossLoss` used for
`profitFactor`. -/
theorem claim_C10_losing_trades_count (strategy : Strategy)
    (dataOf : String → List PriceData) :
    ((runSimulation strategy dataOf).metrics.losingTrades =
      (runSimulation strategy dataOf).metrics.totalTrades -
        (runSimulation strategy dataOf).metrics.winningTrades) ∧
    ((runSimulation strategy dataOf).metrics.losingTrades =
      ((runSimulation strategy dataOf).trades.filter
        (fun t => decide (pnlOr0 t ≤ 0))).length) ∧
    ((runSimulation strategy dataOf).metrics.profitFactor =
      profitFactorOf (grossProfitOf (runSimulation strategy dataOf).trades)
        (grossLossOf (runSimulation strategy dataOf).trades)) ∧
    (grossProfitOf (runSimulation strategy dataOf).trades =
      grossProfitOf ((runSimulation strategy dataOf).trades.filter
        (fun t => decide (pnlOr0 t ≠ 0)))) ∧
    (grossLossOf (runSimulation strategy dataOf).trades =
      grossLossOf ((runSimulation strategy dataOf).trades.filter
        (fun t => decide (pnlOr0 t ≠ 0)))) := by
  refine ⟨rfl, ?_, rfl, ?_, ?_⟩
  · have htot : (runSimulation strategy dataOf).metrics.totalTrades =
        (runSimulation strategy dataOf).trades.length := rfl
    have hwin : (runSimulation strategy dataOf).metrics.winningTrades =
        ((runSimulation strategy dataOf).trades.filter
          (fun t => decide (0 < pnlOr0 t))).length := rfl
    have hsplit := length_filter_add_length_filter_not
      (runSimulation strategy dataOf).trades (fun t => decide (0 < pnlOr0 t))
    have hfun : ((runSimulation strategy dataOf).trades.filter
        (fun t => !decide (0 < pnlOr0 t))) =
        ((runSimulation strategy dataOf).trades.filter
          (fun t => decide (pnlOr0 t ≤ 0))) := by
      apply List.filter_congr
      intro t _
      by_cases h : 0 < pnlOr0 t
      · simp [h, not_le.2 h]
      · simp [h, le_of_not_lt h]
    show (runSimulation strategy dataOf).metrics.totalTrades -
        (runSimulation strategy dataOf).metrics.winningTrades = _
    rw [htot, hwin, ← hfun]
    omega
  · unfold grossProfitOf
    rw [List.filter_filter]
    congr 2
    apply List.filter_congr
    intro t _
    by_cases h : 0 < pnlOr0 t
    · simp [h, ne_of_gt h]
    · simp [h]
  · unfold grossLossOf
    rw [List.filter_filter]
    congr 3
    apply List.filter_congr
    intro t _
    by_cases h : pnlOr0 t < 0
    · simp [h, ne_of_lt h]
    · simp [h]

/-! Specification-side formulations of the condition evaluator and the sell
matcher, written from the specification's wording, to be compared with the
source-side functions. -/

/-- The spec's "actual value" resolution (§4.1): `price`→close,
`volume`→volume, `priceChange`→percentage move from the previous close
(no value when no previous bar exists), nothing for unknown indicators. -/
def actualValueSpec (ind : String) (bar : PriceData) (prev : Option PriceData) : Option ℚ :=
  if ind = "price" then some bar.close
  else if ind = "volume" then some bar.volume
  else if ind = "priceChange" then
    prev.map (fun pb => (bar.close - pb.close) / pb.close * 100)
  else none

/-- The spec's operator application: one of the five comparison operators,
false for an unknown operator. -/
def applyOperatorSpec (op : String) (actual target : ℚ) : Bool :=
  if op = ">" then decide (actual > target)
  else if op = "<" then decide (actual < target)
  else if op = ">=" then decide (actual ≥ target)
  else if op = "<=" then decide (actual ≤ target)
  else if op = "==" then decide (actual = target)
  else false

/-- The condition evaluator as the claim states it: a malformed shape (an
absent or falsy field) evaluates to false, otherwise the operator is applied
to the resolved actual value, failing closed when no value resolves. -/
def evaluateConditionSpec (c : Condition) (bar : PriceData)
    (prev : Option PriceData) : Bool :=
  match c.indicator, c.operator, c.value with
  | some ind, some op, some v =>
    match actualValueSpec ind bar prev with
    | none => false
    | some actual => applyOperatorSpec op actual v
  | _, _, _ => false

/-- C6: the condition evaluator is the pure total function described by the
specification — it resolves close for `price`, volume for `volume`, the
percentage move for `priceChange`, and returns false (never raises) for a
missing previous bar on `priceChange`, an unknown indicator, an unknown
operator, or a malformed condition shape. -/
theorem claim_C6_condition_evaluator (c : Condition) (bar : PriceData)
    (prev : Option PriceData) :
    evaluateCondition c bar prev = evaluateConditionSpec c bar prev := by
  rcases c with ⟨ty, ind?, op?, v?⟩
  cases ind? with
  | none => rfl
  | some ind =>
    cases op? with
    | none => rfl
    | some op =>
      cases v? with
      | none => rfl
      | some v =>
        show (if ind == "" || op == "" then false else _) = _
        by_cases hind : ind = ""
        · subst hind
          simp [evaluateCondition, evaluateConditionSpec, actualValueSpec]
        · by_cases hop : op = ""
          · subst hop
            simp only [evaluateCondition, evaluateConditionSpec]
            have hguard : (ind == "" || "" == "") = true := by simp
            rw [if_pos hguard]
            cases hA : actualValueSpec ind bar prev with
            | none => rfl
            | some a => simp [applyOperatorSpec]
          · have hguard : (ind == "" || op == "") = false := by
              simp [hind, hop]
            simp only [evaluateCondition, evaluateConditionSpec, hguard]
            have hAeq : (if ind = "price" then some bar.close
                else if ind = "volume" then some bar.volume
                else if ind = "priceChange" then
                  match prev with
                  | none => none
                  | some pb => some ((bar.close - pb.close) / pb.close * 100)
                else none) = actualValueSpec ind bar prev := by
              unfold actualValueSpec
              by_cases h1 : ind = "price"
              · simp [h1]
              · by_cases h2 : ind = "volume"
                · simp [h1, h2]
                · by_cases h3 : ind = "priceChange"
                  · simp only [if_neg h1, if_neg h2, if_pos h3]
                    cases prev <;> rfl
                  · simp [h1, h2, h3]
            simp only [Bool.false_eq_true, if_false, hAeq]
            cases actualValueSpec ind bar prev with
            | none => rfl
            | some a => rfl

/-- The percentage move of a bar's close from a position's entry price. -/
def entryMovePct (bar : PriceData) (t : Trade) : ℚ :=
  (bar.close - t.entryPrice) / t.entryPrice * 100

/-- One sell condition as the claim states it: a `stopLoss` rule fires when
the move from entry is at most `-value`, a `takeProfit` rule when it is at
least `value` (either is inert without a value), and any other shape is the
generic evaluator applied to the bar, ignoring the position. -/
def sellConditionFiresSpec (c : Condition) (bar : PriceData)
    (prev : Option PriceData) (t : Trade) : Bool :=
  if c.type = some ("stopLoss") then
    (c.value.map (fun v => decide (entryMovePct bar t ≤ -v))).getD false
  else if c.type = some ("takeProfit") then
    (c.value.map (fun v => decide (entryMovePct bar t ≥ v))).getD false
  else evaluateCondition c bar prev

/-- The sell matcher as the claim states it: false when the rule set has no
conditions or the position is absent or already closed, otherwise the OR of
the individual sell conditions. -/
def shouldSellSpec (sellConfig : RuleSet) (bar : PriceData)
    (prev : Option PriceData) (trade : Option Trade) : Bool :=
  match sellConfig.conditions, trade with
  | some conds, some t =>
    if conds.isEmpty || t.status = "closed" then false
    else conds.any (fun c => sellConditionFiresSpec c bar prev t)
  | _, _ => false

/-- C4: `shouldSell` is exactly the matcher the claim describes — false for
an empty rule set, an absent position, or a closed position; otherwise the
OR over the conditions, with `stopLoss`/`takeProfit` compared against the
percentage move from entry and every other shape evaluated by the generic
indicator/operator path against the bar. -/
theorem claim_C4_should_sell (sellConfig : RuleSet) (bar : PriceData)
    (prev : Option PriceData) (trade : Option Trade) :
    shouldSell sellConfig bar prev trade = shouldSellSpec sellConfig bar prev trade := by
  rcases sellConfig with ⟨conds?⟩
  cases conds? with
  | none => cases trade <;> rfl
  | some conds =>
    cases trade with
    | none =>
      show (if conds.isEmpty then false else false) = false
      by_cases h : conds.isEmpty <;> simp [h]
    | some t =>
      by_cases hemp : conds.isEmpty = true
      · simp [shouldSell, shouldSellSpec, hemp]
      · by_cases hcl : t.status = "closed"
        · simp [shouldSell, shouldSellSpec, hemp, hcl]
        · have hcond : ¬((conds.isEmpty || decide (t.status = "closed")) = true) := by
            simp [hemp, hcl]
          simp only [shouldSell, shouldSellSpec, if_neg hemp, if_neg hcl, if_neg hcond]
          refine congrArg (List.any conds) (funext (fun c => ?_))
          unfold sellConditionFiresSpec
          by_cases h1 : c.type = some ("stopLoss")
          · rw [if_pos h1, if_pos h1]
            cases c.value <;> simp [entryMovePct]
          · rw [if_neg h1, if_neg h1]
            by_cases h2 : c.type = some ("takeProfit")
            · rw [if_pos h2, if_pos h2]
              cases c.value <;> simp [entryMovePct]
            · rw [if_neg h2, if_neg h2]

/-! The cash/ledger bookkeeping identity behind the totalPnl claim. -/

/-- The ledger invariant: cash plus the entry cost of the open positions
equals the initial capital plus the realized pnl of the ledger, and every
open position belongs to a configured symbol. -/
def ledgerInv (strategy : Strategy) (st : SimState) : Prop :=
  st.cash + posCost st.positions =
    strategy.simulationConfig.initialCapital + pnlSum st.allTrades ∧
  ∀ p ∈ st.positions, p.symbol ∈ strategy.simulationConfig.symbols

lemma processDay_ledgerInv (strategy : Strategy) (dataOf : String → List PriceData)
    (d : Nat) (pd : Option Nat) (st : SimState) (h : ledgerInv strategy st) :
    ledgerInv strategy (processDay strategy dataOf d pd st) := by
  obtain ⟨hacc, hsym⟩ := h
  have hsell := processSells_accounting strategy.sellConfig dataOf d pd st.positions st.cash
  have hbuy := processBuys_accounting strategy dataOf d pd
    strategy.simulationConfig.symbols
    (processSells strategy.sellConfig dataOf d pd st.positions st.cash).1
    (processSells strategy.sellConfig dataOf d pd st.positions st.cash).2.1
  constructor
  · show (processBuys strategy dataOf d pd strategy.simulationConfig.symbols
      (processSells strategy.sellConfig dataOf d pd st.positions st.cash).1
      (processSells strategy.sellConfig dataOf d pd st.positions st.cash).2.1).2 +
      posCost (processBuys strategy dataOf d pd strategy.simulationConfig.symbols
        (processSells strategy.sellConfig dataOf d pd st.positions st.cash).1
        (processSells strategy.sellConfig dataOf d pd st.positions st.cash).2.1).1 =
      strategy.simulationConfig.initialCapital +
        pnlSum (st.allTrades ++
          (processSells strategy.sellConfig dataOf d pd st.positions st.cash).2.2)
    rw [pnlSum_append]
    linarith
  · intro p hp
    have hp' : p ∈ (processBuys strategy dataOf d pd strategy.simulationConfig.symbols
        (processSells strategy.sellConfig dataOf d pd st.positions st.cash).1
        (processSells strategy.sellConfig dataOf d pd st.positions st.cash).2.1).1 := hp
    rcases processBuys_mem hp' with hold | ⟨hs, _⟩
    · exact hsym p (processSells_mem hold)
    · exact hs

lemma eq_nil_of_getLast?_eq_none {α : Type} {l : List α}
    (h : l.getLast? = none) : l = [] := by
  induction l with
  | nil => rfl
  | cons a r ih =>
    cases r with
    | nil => simp at h
    | cons b t =>
      rw [List.getLast?_cons_cons] at h
      exact absurd (ih h) (by simp)

/-- The realized pnl of force-closing positions, each of whose series ends
exactly at the bar found on day `D`: mark-to-market value minus entry cost. -/
lemma pnlSum_finalizeRun (dataOf : String → List PriceData) (D : Nat) :
    ∀ (positions : List Trade),
      (∀ p ∈ positions, (dataOf p.symbol).getLast? = findBar (dataOf p.symbol) D ∧
        (findBar (dataOf p.symbol) D).isSome) →
      pnlSum (finalizeRun dataOf positions) =
        (positions.map (markValue dataOf D)).sum - posCost positions := by
  intro positions
  induction positions with
  | nil => intro _; simp [finalizeRun, pnlSum, posCost]
  | cons p rest ih =>
    intro h
    obtain ⟨hgl, hsome⟩ := h p (List.mem_cons_self p rest)
    obtain ⟨bar, hbar⟩ := Option.isSome_iff_exists.1 hsome
    rw [hbar] at hgl
    have hrest := ih (fun q hq => h q (List.mem_cons_of_mem p hq))
    have hfin : finalizeRun dataOf (p :: rest) =
        forceCloseTrade p bar :: finalizeRun dataOf rest := by
      simp only [finalizeRun, List.map_cons, hgl]
    rw [hfin, pnlSum_cons, hrest, List.map_cons, List.sum_cons, posCost_cons]
    simp only [pnlOr0, forceCloseTrade, Option.getD_some, markValue, hbar]
    ring

/-- C1: over exact arithmetic, for every completed run whose per-symbol
series have strictly ascending dates and in which every position still open
at the end of the loop has a price bar on the last global trading day, the
sum of pnl over the returned trade ledger (each trade closed by a sell
signal or by the end-of-run force-close) equals the last equity-curve
point's value minus `initialCapital`. -/
theorem claim_C1_total_pnl_equals_final_equity_minus_capital
    (strategy : Strategy) (dataOf : String → List PriceData)
    (hSorted : ∀ s ∈ strategy.simulationConfig.symbols,
      List.Pairwise (fun a b => a.date < b.date) (dataOf s))
    (hOpenBars : ∀ D, (allDatesOf dataOf strategy.simulationConfig.symbols).getLast? = some D →
      ∀ p ∈ (finalLoopState strategy dataOf).positions,
        (findBar (dataOf p.symbol) D).isSome) :
    ∀ pt, (runSimulation strategy dataOf).equityCurve.getLast? = some pt →
      pnlSum (runSimulation strategy dataOf).trades =
        pt.equity - strategy.simulationConfig.initialCapital := by
  intro pt hpt
  have hcurve : (runSimulation strategy dataOf).equityCurve =
      (finalLoopState strategy dataOf).equityCurve := rfl
  rw [hcurve] at hpt
  cases hD : (allDatesOf dataOf strategy.simulationConfig.symbols).getLast? with
  | none =>
    exfalso
    have hnil := eq_nil_of_getLast?_eq_none hD
    have : (finalLoopState strategy dataOf).equityCurve = [] := by
      show (simLoop strategy dataOf
        (allDatesOf dataOf strategy.simulationConfig.symbols) none
        (initState strategy)).equityCurve = []
      rw [hnil]
      rfl
    rw [this] at hpt
    simp at hpt
  | some D =>
    have hlast := simLoop_equity_getLast strategy dataOf
      (allDatesOf dataOf strategy.simulationConfig.symbols) none
      (initState strategy) D hD
    have hpt' : pt = EquityPoint.mk D
        (portfolioValue dataOf D (finalLoopState strategy dataOf).positions
          (finalLoopState strategy dataOf).cash) := by
      have h2 : (finalLoopState strategy dataOf).equityCurve.getLast? =
          some (EquityPoint.mk D
            (portfolioValue dataOf D (finalLoopState strategy dataOf).positions
              (finalLoopState strategy dataOf).cash)) := hlast
      rw [h2] at hpt
      exact (Option.some_inj.1 hpt).symm
    have hinv : ledgerInv strategy (finalLoopState strategy dataOf) :=
      simLoop_inv strategy dataOf (ledgerInv strategy)
        (fun d pd st h => processDay_ledgerInv strategy dataOf d pd st h)
        (allDatesOf dataOf strategy.simulationConfig.symbols) none
        (initState strategy)
        (by
          constructor
          · simp [initState, posCost, pnlSum]
          · intro p hp
            simp [initState] at hp)
    obtain ⟨hacc, hsyms⟩ := hinv
    have hbars : ∀ p ∈ (finalLoopState strategy dataOf).positions,
        (dataOf p.symbol).getLast? = findBar (dataOf p.symbol) D ∧
        (findBar (dataOf p.symbol) D).isSome := by
      intro p hp
      have hsome := hOpenBars D hD p hp
      refine ⟨?_, hsome⟩
      refine getLast_eq_findBar (hSorted p.symbol (hsyms p hp)) ?_ hsome
      intro b hb
      have hmem : b.date ∈ allDatesOf dataOf strategy.simulationConfig.symbols :=
        mem_allDatesOf (hsyms p hp) hb
      have hpw : List.Pairwise (· ≤ ·)
          (allDatesOf dataOf strategy.simulationConfig.symbols) := by
        unfold allDatesOf
        exact pairwise_sortAsc _
      exact le_getLast_of_pairwise hpw hD b.date hmem
    have hfin := pnlSum_finalizeRun dataOf D
      (finalLoopState strategy dataOf).positions hbars
    have htr : (runSimulation strategy dataOf).trades =
        (finalLoopState strategy dataOf).allTrades ++
          finalizeRun dataOf (finalLoopState strategy dataOf).positions := rfl
    have hpv := portfolioValue_eq_sum dataOf D
      (finalLoopState strategy dataOf).positions
      (finalLoopState strategy dataOf).cash
    rw [htr, pnlSum_append, hfin, hpt']
    simp only
    rw [hpv]
    linarith

/-! Concrete fixtures: small strategies and price series used to evaluate
the engine at explicit inputs. -/

/-- A flat bar: all four prices equal, volume 1000. -/
def mkBar (d : Nat) (c : ℚ) : PriceData :=
  { date := d, openPrice := c, high := c, close := c, low := c, volume := 1000 }

/-- The indicator rule `price > 0`, which fires on every bar with a positive
close. -/
def condPricePos : Condition :=
  { type := none, indicator := some ("price"), operator := some (">"), value := some 0 }

/-- One symbol, two days (closes 10 then 12), buy `price > 0`, no sell
rules, capital 100 fully allocated to a single position. -/
def fixtureStrategyB : Strategy :=
  { scannerConfig := { conditions := none }
    buyConfig := { conditions := some [condPricePos] }
    sellConfig := { conditions := none }
    simulationConfig :=
      { startDate := 0, endDate := 1, initialCapital := 100
        symbols := ["A"], maxPositions := 1, positionSize := 100 } }

/-- Price data for `fixtureStrategyB`. -/
def fixtureDataB : String → List PriceData := fun s =>
  if s = "A" then [mkBar 0 10, mkBar 1 12] else []

/-- The position `fixtureStrategyB` opens on day 0: 10 shares at 10. -/
def fixtureTradeB : Trade :=
  { symbol := "A", entryDate := 0, entryPrice := 10, exitDate := none,
    exitPrice := none, quantity := 10, pnl := none, pnlPercentage := none,
    status := "open" }

/-- Two symbols with `maxPositions = 1`: `A` trades only on day 0 (close
100, the whole capital), `B` trades on both days, so on day 1 the open `A`
position has no bar and marks to 0. -/
def fixtureStrategyA : Strategy :=
  { scannerConfig := { conditions := none }
    buyConfig := { conditions := some [condPricePos] }
    sellConfig := { conditions := none }
    simulationConfig :=
      { startDate := 0, endDate := 1, initialCapital := 100
        symbols := ["A", "B"], maxPositions := 1, positionSize := 100 } }

/-- Price data for `fixtureStrategyA`. -/
def fixtureDataA : String → List PriceData := fun s =>
  if s = "A" then [mkBar 0 100]
  else if s = "B" then [mkBar 0 5, mkBar 1 5] else []

/-- A strategy whose buy rule set is present but empty. -/
def fixtureStrategyC : Strategy :=
  { scannerConfig := { conditions := none }
    buyConfig := { conditions := some [] }
    sellConfig := { conditions := none }
    simulationConfig :=
      { startDate := 0, endDate := 1, initialCapital := 100
        symbols := ["A"], maxPositions := 1, positionSize := 100 } }

/-- A configuration violating the documented invariants: negative initial
capital and a position size above 100%. -/
def fixtureStrategyInvalid : Strategy :=
  { scannerConfig := { conditions := none }
    buyConfig := { conditions := none }
    sellConfig := { conditions := none }
    simulationConfig :=
      { startDate := 0, endDate := 1, initialCapital := -100
        symbols := ["A"], maxPositions := 1, positionSize := 150 } }

/-- Evaluation of the loop on fixture B: day 0 buys 10 shares of `A` at 10
(cash 0), day 1 holds; the curve reads 100 then 120. -/
lemma fixtureB_eval : finalLoopState fixtureStrategyB fixtureDataB =
    SimState.mk 0 [fixtureTradeB] []
      [EquityPoint.mk 0 100, EquityPoint.mk 1 120] := by
  norm_num [finalLoopState, simLoop, processDay, processSells, processBuys,
    portfolioValue, findBar, allDatesOf, dedupKeepFirst, dedupSeen, sortAsc,
    insertAsc, initState, shouldBuy, shouldSell, evaluateCondition,
    fixtureStrategyB, fixtureDataB, fixtureTradeB, mkBar, condPricePos]
  simp only [ne_eq, String.reduceEq, not_false_eq_true, and_self, if_true]
  norm_num

/-- The position `fixtureStrategyA` opens on day 0: 1 share of `A` at 100,
consuming all cash. -/
def fixtureTradeA : Trade :=
  { symbol := "A", entryDate := 0, entryPrice := 100, exitDate := none,
    exitPrice := none, quantity := 1, pnl := none, pnlPercentage := none,
    status := "open" }

/-- Evaluation of the loop on fixture A: day 0 buys 1 share of `A` at 100
(cash 0, equity 100); on day 1 `A` has no bar, so the open position marks to
0 and the equity point is exactly 0. -/
lemma fixtureA_eval : finalLoopState fixtureStrategyA fixtureDataA =
    SimState.mk 0 [fixtureTradeA] []
      [EquityPoint.mk 0 100, EquityPoint.mk 1 0] := by
  norm_num [finalLoopState, simLoop, processDay, processSells, processBuys,
    portfolioValue, findBar, allDatesOf, dedupKeepFirst, dedupSeen, sortAsc,
    insertAsc, initState, shouldBuy, shouldSell, evaluateCondition,
    fixtureStrategyA, fixtureDataA, fixtureTradeA, mkBar, condPricePos]
  simp only [ne_eq, String.reduceEq, not_false_eq_true, and_self, if_true]
  norm_num

/-- Evaluation of the loop on the invalid-configuration fixture: no
validation exists, so the loop runs both days with cash fixed at the
negative initial capital (the empty buy rule set never opens a position). -/
lemma fixtureInvalid_eval :
    finalLoopState fixtureStrategyInvalid fixtureDataB =
    SimState.mk (-100) [] []
      [EquityPoint.mk 0 (-100), EquityPoint.mk 1 (-100)] := by
  norm_num [finalLoopState, simLoop, processDay, processSells, processBuys,
    portfolioValue, findBar, allDatesOf, dedupKeepFirst, dedupSeen, sortAsc,
    insertAsc, initState, shouldBuy, shouldSell, evaluateCondition,
    fixtureStrategyInvalid, fixtureDataB, mkBar]

/-- C2: the claim fails in the code, which performs no configuration
validation at all: on a strategy with `initialCapital = -100` and
`positionSize = 150` (both violating the documented invariants) the
simulation is not rejected — the day-by-day loop executes on both trading
days and a complete `SimulationResults` is returned. -/
theorem claim_C2_runs_loop_without_validation :
    fixtureStrategyInvalid.simulationConfig.initialCapital ≤ 0 ∧
    (100 : ℚ) < fixtureStrategyInvalid.simulationConfig.positionSize ∧
    (runSimulation fixtureStrategyInvalid fixtureDataB).equityCurve =
      [EquityPoint.mk 0 (-100), EquityPoint.mk 1 (-100)] ∧
    (runSimulation fixtureStrategyInvalid fixtureDataB).metrics.totalTrades = 0 := by
  refine ⟨by norm_num [fixtureStrategyInvalid], by norm_num [fixtureStrategyInvalid], ?_, ?_⟩
  · show (finalLoopState fixtureStrategyInvalid fixtureDataB).equityCurve = _
    rw [fixtureInvalid_eval]
  · show ((finalLoopState fixtureStrategyInvalid fixtureDataB).allTrades ++
      finalizeRun fixtureDataB
        (finalLoopState fixtureStrategyInvalid fixtureDataB).positions).length = 0
    rw [fixtureInvalid_eval]
    rfl

/-- C5 counterexample: on fixture A the equity curve is non-empty and its
last point's equity is exactly 0, yet the code's `||`-fallback makes
`finalCapital` equal `initialCapital`, so `totalPnl` is 0 instead of the
`lastEquity - initialCapital = -100` the claim requires. -/
theorem claim_C5_final_equity_counterexample :
    (runSimulation fixtureStrategyA fixtureDataA).equityCurve.getLast? =
      some (EquityPoint.mk 1 0) ∧
    (runSimulation fixtureStrategyA fixtureDataA).totalPnl = 0 ∧
    ¬((runSimulation fixtureStrategyA fixtureDataA).totalPnl =
      (EquityPoint.mk 1 0).equity -
        fixtureStrategyA.simulationConfig.initialCapital) := by
  have hcurve : (runSimulation fixtureStrategyA fixtureDataA).equityCurve =
      [EquityPoint.mk 0 100, EquityPoint.mk 1 0] := by
    show (finalLoopState fixtureStrategyA fixtureDataA).equityCurve = _
    rw [fixtureA_eval]
  have htp : (runSimulation fixtureStrategyA fixtureDataA).totalPnl =
      finalCapitalOf (finalLoopState fixtureStrategyA fixtureDataA).equityCurve
        fixtureStrategyA.simulationConfig.initialCapital -
        fixtureStrategyA.simulationConfig.initialCapital := rfl
  have hfc : finalCapitalOf (finalLoopState fixtureStrategyA fixtureDataA).equityCurve
      fixtureStrategyA.simulationConfig.initialCapital = 100 := by
    rw [fixtureA_eval]
    norm_num [finalCapitalOf, fixtureStrategyA]
  refine ⟨?_, ?_, ?_⟩
  · rw [hcurve]; rfl
  · rw [htp, hfc]; norm_num [fixtureStrategyA]
  · rw [htp, hfc]; norm_num [fixtureStrategyA]

/-- C5 amended: `finalEquity` (the code's `finalCapital`, observable as
`totalPnl + initialCapital`) equals the last equity point's value when the
curve is non-empty and that value is non-zero; it falls back to
`initialCapital` (totalPnl 0) both when the curve is empty and when the last
equity is exactly 0, because `|| initialCapital` treats the number 0 as
falsy. -/
theorem claim_C5_final_equity_amended (strategy : Strategy)
    (dataOf : String → List PriceData) :
    ((runSimulation strategy dataOf).equityCurve.getLast? = none →
      (runSimulation strategy dataOf).totalPnl = 0) ∧
    (∀ pt, (runSimulation strategy dataOf).equityCurve.getLast? = some pt →
      (pt.equity = 0 → (runSimulation strategy dataOf).totalPnl = 0) ∧
      (pt.equity ≠ 0 → (runSimulation strategy dataOf).totalPnl =
        pt.equity - strategy.simulationConfig.initialCapital)) := by
  have htp : (runSimulation strategy dataOf).totalPnl =
      finalCapitalOf (finalLoopState strategy dataOf).equityCurve
        strategy.simulationConfig.initialCapital -
        strategy.simulationConfig.initialCapital := rfl
  constructor
  · intro hnone
    have hnone' : (finalLoopState strategy dataOf).equityCurve.getLast? = none := hnone
    rw [htp]
    unfold finalCapitalOf
    rw [hnone']
    simp
  · intro pt hpt
    have hpt' : (finalLoopState strategy dataOf).equityCurve.getLast? = some pt := hpt
    constructor
    · intro h0
      rw [htp]
      unfold finalCapitalOf
      rw [hpt']
      simp [h0]
    · intro h0
      rw [htp]
      unfold finalCapitalOf
      rw [hpt']
      simp only [if_neg h0]

/-- Witness for C5 (amended): on fixture B the last equity point is 120 ≠ 0
and `totalPnl` is indeed `120 - 100 = 20`. -/
theorem claim_C5_final_equity_amended_witness :
    (runSimulation fixtureStrategyB fixtureDataB).equityCurve.getLast? =
      some (EquityPoint.mk 1 120) ∧
    ((120 : ℚ) ≠ 0) ∧
    (runSimulation fixtureStrategyB fixtureDataB).totalPnl = 20 := by
  have hpt : (runSimulation fixtureStrategyB fixtureDataB).equityCurve.getLast? =
      some (EquityPoint.mk 1 120) := by
    show (finalLoopState fixtureStrategyB fixtureDataB).equityCurve.getLast? = _
    rw [fixtureB_eval]
    rfl
  have h := (claim_C5_final_equity_amended fixtureStrategyB fixtureDataB).2
    (EquityPoint.mk 1 120) hpt
  refine ⟨hpt, by norm_num, ?_⟩
  have h2 := h.2 (by norm_num)
  rw [h2]
  norm_num [fixtureStrategyB]

/-- Witness for C1: on fixture B (one position opened at 10, force-closed at
12), the hypotheses hold and the ledger pnl sum is `120 - 100 = 20`. -/
theorem claim_C1_total_pnl_equals_final_equity_minus_capital_witness :
    (∀ s ∈ fixtureStrategyB.simulationConfig.symbols,
      List.Pairwise (fun a b => a.date < b.date) (fixtureDataB s)) ∧
    (∀ D, (allDatesOf fixtureDataB
        fixtureStrategyB.simulationConfig.symbols).getLast? = some D →
      ∀ p ∈ (finalLoopState fixtureStrategyB fixtureDataB).positions,
        (findBar (fixtureDataB p.symbol) D).isSome) ∧
    pnlSum (runSimulation fixtureStrategyB fixtureDataB).trades = 20 := by
  have h1 : ∀ s ∈ fixtureStrategyB.simulationConfig.symbols,
      List.Pairwise (fun a b => a.date < b.date) (fixtureDataB s) := by
    intro s hs
    have hs' : s = "A" := by simpa [fixtureStrategyB] using hs
    subst hs'
    simp [fixtureDataB, mkBar, List.pairwise_cons]
  have h2 : ∀ D, (allDatesOf fixtureDataB
      fixtureStrategyB.simulationConfig.symbols).getLast? = some D →
      ∀ p ∈ (finalLoopState fixtureStrategyB fixtureDataB).positions,
        (findBar (fixtureDataB p.symbol) D).isSome := by
    intro D hD p hp
    have hdates : allDatesOf fixtureDataB
        fixtureStrategyB.simulationConfig.symbols = [0, 1] := by decide
    rw [hdates] at hD
    have hD1 : D = 1 := by
      rw [show (([0, 1] : List Nat).getLast?) = some 1 from rfl] at hD
      exact (Option.some_inj.1 hD).symm
    subst hD1
    rw [fixtureB_eval] at hp
    have hp' : p = fixtureTradeB := by simpa using hp
    subst hp'
    decide
  have hpt : (runSimulation fixtureStrategyB fixtureDataB).equityCurve.getLast? =
      some (EquityPoint.mk 1 120) := by
    show (finalLoopState fixtureStrategyB fixtureDataB).equityCurve.getLast? = _
    rw [fixtureB_eval]
    rfl
  have hmain := claim_C1_total_pnl_equals_final_equity_minus_capital
    fixtureStrategyB fixtureDataB h1 h2 (EquityPoint.mk 1 120) hpt
  refine ⟨h1, h2, ?_⟩
  rw [hmain]
  norm_num [fixtureStrategyB]

/-- Witness for C3: the bound holds after both days of fixture B, and with
`maxPositions = 1` already-full position lists stop the open transition. -/
theorem claim_C3_max_positions_witness :
    ((simStateAt fixtureStrategyB fixtureDataB 2).positions.length ≤
      fixtureStrategyB.simulationConfig.maxPositions) ∧
    ([fixtureTradeB].length ≤ fixtureStrategyB.simulationConfig.maxPositions) ∧
    (processBuys fixtureStrategyB fixtureDataB 0 none ["A"] [fixtureTradeB] 5 =
      ([fixtureTradeB], 5)) ∧
    ((processBuys fixtureStrategyB fixtureDataB 0 none
        fixtureStrategyB.simulationConfig.symbols [fixtureTradeB] 5).1.length ≤
      fixtureStrategyB.simulationConfig.maxPositions) := by
  have h := claim_C3_max_positions fixtureStrategyB fixtureDataB
  refine ⟨h.1 2, by decide, ?_, ?_⟩
  · exact h.2.2.2 0 none ["A"] [fixtureTradeB] 5 (by decide)
  · exact h.2.2.1 0 none fixtureStrategyB.simulationConfig.symbols
      [fixtureTradeB] 5 (by decide)

/-- Witness for C7: on fixture B the capital is positive, every drawdown
point is non-negative and the maximum is attained in the series. -/
theorem claim_C7_drawdowns_nonneg_max_witness :
    ((0 : ℚ) < fixtureStrategyB.simulationConfig.initialCapital) ∧
    (∀ dp ∈ (runSimulation fixtureStrategyB fixtureDataB).drawdowns,
      0 ≤ dp.drawdown) ∧
    (∃ dp ∈ (runSimulation fixtureStrategyB fixtureDataB).drawdowns,
      (runSimulation fixtureStrategyB fixtureDataB).metrics.maxDrawdown =
        dp.drawdown) := by
  have hic : (0 : ℚ) < fixtureStrategyB.simulationConfig.initialCapital := by
    norm_num [fixtureStrategyB]
  have h := claim_C7_drawdowns_nonneg_max fixtureStrategyB fixtureDataB hic
  have hne : (runSimulation fixtureStrategyB fixtureDataB).drawdowns ≠ [] := by
    show drawdownsFrom fixtureStrategyB.simulationConfig.initialCapital
      (finalLoopState fixtureStrategyB fixtureDataB).equityCurve ≠ []
    rw [fixtureB_eval]
    simp [drawdownsFrom]
  exact ⟨hic, h.1, h.2.2.2 hne⟩

/-- Witness for C8: fixture C (an empty buy rule set) produces no trades and
an equity curve pinned at 100. -/
theorem claim_C8_empty_buy_rules_witness :
    (fixtureStrategyC.buyConfig.conditions = none ∨
      fixtureStrategyC.buyConfig.conditions = some []) ∧
    (runSimulation fixtureStrategyC fixtureDataB).trades = [] ∧
    (∀ pt ∈ (runSimulation fixtureStrategyC fixtureDataB).equityCurve,
      pt.equity = fixtureStrategyC.simulationConfig.initialCapital) := by
  have hE : fixtureStrategyC.buyConfig.conditions = none ∨
      fixtureStrategyC.buyConfig.conditions = some [] := Or.inr rfl
  have h := claim_C8_empty_buy_rules fixtureStrategyC fixtureDataB hE
  exact ⟨hE, h.1, h.2⟩

/-- Witness for C9: fixture B satisfies the hypotheses and ends both days
with non-negative cash. -/
theorem claim_C9_cash_never_negative_witness :
    ((0 : ℚ) ≤ fixtureStrategyB.simulationConfig.initialCapital) ∧
    ((0 : ℚ) ≤ fixtureStrategyB.simulationConfig.positionSize) ∧
    (∀ s ∈ fixtureStrategyB.simulationConfig.symbols,
      ∀ bar ∈ fixtureDataB s, 0 < bar.close) ∧
    (0 ≤ (simStateAt fixtureStrategyB fixtureDataB 2).cash) := by
  have hIC : (0 : ℚ) ≤ fixtureStrategyB.simulationConfig.initialCapital := by
    norm_num [fixtureStrategyB]
  have hPS : (0 : ℚ) ≤ fixtureStrategyB.simulationConfig.positionSize := by
    norm_num [fixtureStrategyB]
  have hClose : ∀ s ∈ fixtureStrategyB.simulationConfig.symbols,
      ∀ bar ∈ fixtureDataB s, 0 < bar.close := by
    intro s hs bar hb
    have hs' : s = "A" := by simpa [fixtureStrategyB] using hs
    subst hs'
    have hb' : bar = mkBar 0 10 ∨ bar = mkBar 1 12 := by
      simpa [fixtureDataB] using hb
    rcases hb' with rfl | rfl <;> norm_num [mkBar]
  exact ⟨hIC, hPS, hClose,
    (claim_C9_cash_never_negative fixtureStrategyB fixtureDataB hIC hPS hClose).1 2⟩

end TS

